import Mathlib

/-!
Verification of the `ExecutionPayload` codec and commitment engine
(beacon-kit `execution-payload` module).

The Go source defines the `ExecutionPayload` record together with:
* an SSZ offset-table encoder/decoder driven by `DefineSSZ` / `SizeSSZ` /
  `MarshalSSZ` (the offset-table codec machinery lives in the `karalabe/ssz`
  library and is modelled here from the spec, instantiated at the exact field
  schema written in `DefineSSZ`);
* a generic schema-driven hash-tree-root (`HashTreeRoot`) and an independently
  implemented streaming hasher (`HashTreeRootWith`, over a `fastssz`
  hash-walker);
* fork-version-gated post-decode validation (`ValidateAfterDecodingSSZ`);
* the header projection (`ToHeader`) and JSON decoding (`UnmarshalJSON`).

Bytes are modelled as `Nat` values (the encoder only ever emits values `< 256`),
buffers as `List Nat`, and fixed-width Go arrays as length-indexed lists.
The SHA-256 pairwise compression function is an external collaborator of the
source; every hashing definition is parametrised by an abstract compression
function `H` on 32-byte chunks, so every hashing theorem holds for all
compression functions producing 32-byte outputs.
-/

/-- Fixed-length byte vector, modelling a Go `[n]byte` array. -/
def BVec (n : Nat) : Type := { l : List Nat // l.length = n }

instance (n : Nat) : DecidableEq (BVec n) := fun a b =>
  decidable_of_iff (a.val = b.val) Subtype.ext_iff.symm

/-- The all-zero byte vector (Go zero value of `[n]byte`). -/
def BVec.zero (n : Nat) : BVec n := ⟨List.replicate n 0, List.length_replicate n 0⟩

/-- Little-endian byte serialization of a natural number on `k` bytes
(the value is taken modulo `2^(8*k)`, as Go fixed-width integers are). -/
def natToBytesLE : Nat → Nat → List Nat
  | 0, _ => []
  | k + 1, n => n % 256 :: natToBytesLE k (n / 256)

/-- Little-endian read-back of a byte list into a natural number. -/
def byteListToNatLE : List Nat → Nat
  | [] => 0
  | b :: rest => b % 256 + 256 * byteListToNatLE rest

/-- 4-byte little-endian encoding (SSZ offsets, Go `uint32`). -/
def u32le (n : Nat) : List Nat := natToBytesLE 4 n

/-- 8-byte little-endian encoding (Go `uint64`). -/
def u64le (n : Nat) : List Nat := natToBytesLE 8 n

/-- 32-byte little-endian encoding (Go `uint256`). -/
def u256le (n : Nat) : List Nat := natToBytesLE 32 n

theorem natToBytesLE_length (k n : Nat) : (natToBytesLE k n).length = k := by
  induction k generalizing n with
  | zero => rfl
  | succ k ih => simp [natToBytesLE, ih]


theorem mod_pow_split (k n : Nat) :
    n % 256 ^ (k + 1) = 256 * (n / 256 % 256 ^ k) + n % 256 := by
  have hq : n / 256 % 256 ^ k < 256 ^ k := Nat.mod_lt _ (Nat.pos_pow_of_pos k (by omega))
  have hr : n % 256 < 256 := Nat.mod_lt _ (by omega)
  have hlt : 256 * (n / 256 % 256 ^ k) + n % 256 < 256 * 256 ^ k := by
    have h1 : n / 256 % 256 ^ k + 1 <= 256 ^ k := hq
    have h2 : 256 * (n / 256 % 256 ^ k + 1) <= 256 * 256 ^ k := Nat.mul_le_mul_left 256 h1
    omega
  have key : n % 256 ^ (k + 1) = (256 * (n / 256 % 256 ^ k) + n % 256) % (256 * 256 ^ k) := by
    conv_lhs => rw [<- Nat.div_add_mod n 256]
    rw [pow_succ, Nat.mul_comm (256 ^ k) 256]
    exact ((Nat.mod_modEq (n / 256) (256 ^ k)).symm.mul_left' 256).add_right (n % 256)
  rw [key, Nat.mod_eq_of_lt hlt]

theorem byteListToNatLE_natToBytesLE (k n : Nat) :
    byteListToNatLE (natToBytesLE k n) = n % 256 ^ k := by
  induction k generalizing n with
  | zero => simp [natToBytesLE, byteListToNatLE, Nat.mod_one]
  | succ k ih =>
    simp only [natToBytesLE, byteListToNatLE, ih]
    rw [mod_pow_split, Nat.add_comm]
    omega

theorem natToBytesLE_mod (k n : Nat) :
    natToBytesLE k (n % 256 ^ k) = natToBytesLE k n := by
  induction k generalizing n with
  | zero => rfl
  | succ k ih =>
    have hdiv : n % 256 ^ (k + 1) / 256 = n / 256 % 256 ^ k := by
      rw [mod_pow_split]
      have hr : n % 256 < 256 := Nat.mod_lt _ (by omega)
      rw [Nat.add_comm, Nat.add_mul_div_left _ _ (by omega : 0 < 256)]
      simp [Nat.div_eq_of_lt hr]
    have hmod : n % 256 ^ (k + 1) % 256 = n % 256 :=
      Nat.mod_mod_of_dvd n (dvd_pow_self 256 (Nat.succ_ne_zero k))
    simp only [natToBytesLE, hmod, hdiv]
    rw [ih]

/-! ## Fork versions

Modelled from the spec: the `primitives/version` package is not under `src/`;
the spec states that protocol versions form a totally ordered sequence and
names the forks used by the source (`Capella`, `Deneb`, `Deneb1`, `Electra`,
`Electra1`); `version.EqualsOrIsAfter a b` holds when `a` is `b` or a later
fork. -/

/-- The fork versions of the chain, in chronological order. -/
inductive Version where
  | phase0 | altair | bellatrix | capella | deneb | deneb1 | electra | electra1
deriving DecidableEq

/-- Chronological index of a fork version. -/
def Version.idx : Version → Nat
  | .phase0 => 0 | .altair => 1 | .bellatrix => 2 | .capella => 3
  | .deneb => 4 | .deneb1 => 5 | .electra => 6 | .electra1 => 7

/-- Modelled from the spec: `version.EqualsOrIsAfter(a, b)` — `a` is `b` or a
later fork (versions are totally ordered). -/
def equalsOrIsAfter (a b : Version) : Bool := b.idx ≤ a.idx

/-! ## Data model

`ExecutionPayload` is translated field-for-field from the Go struct.  Go nil
pointers / nil slices that the source distinguishes from non-nil values are
modelled with `Option`: `BaseFeePerGas *math.U256` and
`Withdrawals []*engineprimitives.Withdrawal` (the source explicitly treats a
nil withdrawals slice as distinct from an empty one in
`ValidateAfterDecodingSSZ` and `NewEmptyExecutionPayloadWithVersion`).
`ExtraData` and `Transactions` are plain lists (the source never branches on
their nillness). -/

/-- Modelled from the spec: `engineprimitives.Withdrawal` — a static
44-byte SSZ object with fields `Index (uint64)`, `ValidatorIndex (uint64)`,
`Address ([20]byte)`, `Amount (uint64)` (a `ListOfStaticObjects` element). -/
structure Withdrawal where
  index : Nat
  validatorIndex : Nat
  address : BVec 20
  amount : Nat
deriving DecidableEq

/-- The `ExecutionPayload` record of the source. -/
structure ExecutionPayload where
  version : Version
  parentHash : BVec 32
  feeRecipient : BVec 20
  stateRoot : BVec 32
  receiptsRoot : BVec 32
  logsBloom : BVec 256
  random : BVec 32
  number : Nat
  gasLimit : Nat
  gasUsed : Nat
  timestamp : Nat
  extraData : List Nat
  baseFeePerGas : Option Nat
  blockHash : BVec 32
  transactions : List (List Nat)
  withdrawals : Option (List Withdrawal)
  blobGasUsed : Nat
  excessBlobGas : Nat
deriving DecidableEq

/-- `NewEmptyExecutionPayloadWithVersion`: empty payload tagged with a fork
version; `BaseFeePerGas` is a fresh (non-nil) zero `U256`, withdrawals are a
non-nil empty list from Capella onwards and nil before. -/
def newEmptyExecutionPayloadWithVersion (forkVersion : Version) : ExecutionPayload :=
  { version := forkVersion
    parentHash := BVec.zero 32
    feeRecipient := BVec.zero 20
    stateRoot := BVec.zero 32
    receiptsRoot := BVec.zero 32
    logsBloom := BVec.zero 256
    random := BVec.zero 32
    number := 0
    gasLimit := 0
    gasUsed := 0
    timestamp := 0
    extraData := []
    baseFeePerGas := some 0
    blockHash := BVec.zero 32
    transactions := []
    withdrawals := if equalsOrIsAfter forkVersion .capella then some [] else none
    blobGasUsed := 0
    excessBlobGas := 0 }

deriving instance DecidableEq for Except

/-- Typed SSZ codec/hasher errors (spec section 7 error taxonomy; the
streaming hasher reports capacity violations as `fastssz.ErrIncorrectListSize`,
modelled as `incorrectListSize`). -/
inductive SSZErr where
  | incorrectListSize
  | capacityExceeded
  | truncated
  | offsetOutOfOrder
  | offsetOutOfBounds
  | badLength
deriving DecidableEq

/-- `ValidateAfterDecodingSSZ`: from Capella onwards a nil withdrawals slice
is normalized to a non-nil empty one; the function never fails. -/
def validateAfterDecodingSSZ (p : ExecutionPayload) : Except SSZErr ExecutionPayload :=
  if p.withdrawals = none ∧ equalsOrIsAfter p.version .capella then
    .ok { p with withdrawals := some [] }
  else
    .ok p

/-! ## Sizes and capacities -/

/-- `ExecutionPayloadStaticSize`: sum of the fixed-field widths and the three
4-byte offsets of the static region. -/
def executionPayloadStaticSize : Nat := 528

/-- The exact byte length of the payload's SSZ encoding: the static size plus
the dynamic sizes of `ExtraData`, `Transactions` (4-byte per-element offset
plus content) and `Withdrawals` (44 bytes per element), as an unbounded
natural number. -/
def encodedSize (p : ExecutionPayload) : Nat :=
  executionPayloadStaticSize
    + p.extraData.length
    + (p.transactions.map (fun tx => 4 + tx.length)).sum
    + 44 * (p.withdrawals.getD []).length

/-- `SizeSSZ`: static size when `fixed = true`, otherwise the total size.  The
source computes the total in Go `uint32` arithmetic: each helper size is a
`uint32` and the additions wrap modulo `2 ^ 32`; a chain of wrapping additions
of wrapped summands equals the unbounded sum reduced modulo `2 ^ 32`, so the
result is `encodedSize` modulo `2 ^ 32`. -/
def sizeSSZ (p : ExecutionPayload) (fixed : Bool) : Nat :=
  if fixed then executionPayloadStaticSize
  else encodedSize p % 2 ^ 32

/-- Declared maximum element counts / byte lengths of the schema
(`DefineSSZ` / `HashTreeRootWith`). -/
def maxExtraDataSize : Nat := 32
def maxTxsPerPayload : Nat := 1048576
def maxBytesPerTx : Nat := 1073741824
def maxWithdrawalsPerPayload : Nat := 16

/-- A declared list/byte-length maximum of the schema is violated. -/
def capacityViolated (p : ExecutionPayload) : Prop :=
  maxExtraDataSize < p.extraData.length
    ∨ maxTxsPerPayload < p.transactions.length
    ∨ (∃ tx ∈ p.transactions, maxBytesPerTx < tx.length)
    ∨ maxWithdrawalsPerPayload < (p.withdrawals.getD []).length

instance (p : ExecutionPayload) : Decidable (capacityViolated p) := by
  unfold capacityViolated
  infer_instance

/-! ## Offset-table encoder

Modelled from the spec: the `karalabe/ssz` encoding machinery is not under
`src/`; the spec (sections 4.2, 6) fixes the layout — fixed fields and 4-byte
little-endian offsets in `DefineSSZ` declaration order, followed by the
variable-field contents in the same order; capacity maxima are checked before
any bytes are written.  The schema (field order, widths, maxima) is the one
written in the source's `DefineSSZ`. -/

/-- 44-byte serialization of one withdrawal. -/
def encodeWithdrawal (w : Withdrawal) : List Nat :=
  u64le w.index ++ u64le w.validatorIndex ++ w.address.val ++ u64le w.amount

/-- Total dynamic size of the transactions list: a 4-byte offset plus the
content bytes per transaction. -/
def txsSize (txs : List (List Nat)) : Nat := (txs.map (fun tx => 4 + tx.length)).sum

theorem sizeSSZ_false_eq (p : ExecutionPayload) :
    sizeSSZ p false = encodedSize p % 2 ^ 32 := rfl

theorem encodedSize_eq (p : ExecutionPayload) :
    encodedSize p
      = 528 + p.extraData.length + txsSize p.transactions
          + 44 * (p.withdrawals.getD []).length := by
  simp only [encodedSize, executionPayloadStaticSize, txsSize]

/-- The per-element offset table of a list of variable-byte elements
(offsets relative to the start of the list's own region). -/
def encodeTxOffsets : Nat → List (List Nat) → List Nat
  | _, [] => []
  | base, tx :: rest => u32le base ++ encodeTxOffsets (base + tx.length) rest

/-- Serialization of the transactions list: offset table then contents. -/
def encodeTxs (txs : List (List Nat)) : List Nat :=
  encodeTxOffsets (4 * txs.length) txs ++ txs.flatten

/-- The static region: fixed fields and the three dynamic offsets, in
`DefineSSZ` declaration order. -/
def staticRegion (p : ExecutionPayload) : List Nat :=
  p.parentHash.val ++ p.feeRecipient.val ++ p.stateRoot.val ++ p.receiptsRoot.val
    ++ p.logsBloom.val ++ p.random.val
    ++ u64le p.number ++ u64le p.gasLimit ++ u64le p.gasUsed ++ u64le p.timestamp
    ++ u32le executionPayloadStaticSize
    ++ u256le (p.baseFeePerGas.getD 0)
    ++ p.blockHash.val
    ++ u32le (executionPayloadStaticSize + p.extraData.length)
    ++ u32le (executionPayloadStaticSize + p.extraData.length + txsSize p.transactions)
    ++ u64le p.blobGasUsed ++ u64le p.excessBlobGas

/-- The dynamic region: `ExtraData`, `Transactions`, `Withdrawals` contents in
declaration order. -/
def dynamicRegion (p : ExecutionPayload) : List Nat :=
  p.extraData ++ encodeTxs p.transactions
    ++ ((p.withdrawals.getD []).map encodeWithdrawal).flatten

/-- `ssz.EncodeToBytes` at the `ExecutionPayload` schema: capacity maxima are
checked before any bytes are written. -/
def encodePayload (p : ExecutionPayload) : Except SSZErr (List Nat) :=
  if capacityViolated p then .error .capacityExceeded
  else .ok (staticRegion p ++ dynamicRegion p)

/-- `MarshalSSZ`: allocates a buffer of `ssz.Size(p)` bytes and encodes into
it, returning the buffer together with the encoding error (the Go function
returns the allocated buffer even when encoding fails; on failure no bytes
have been written). -/
def marshalSSZ (p : ExecutionPayload) : List Nat × Option SSZErr :=
  match encodePayload p with
  | .ok bz => (bz, none)
  | .error e => (List.replicate (sizeSSZ p false) 0, some e)

/-! ## Offset-table decoder

Modelled from the spec (section 4.3): fixed fields are read at their static
offsets, the variable-field offsets are validated (first offset equals the
static size, offsets non-decreasing and within bounds), the dynamic region is
sliced between consecutive offsets, nested lists of variable-size elements
recursively apply the same offset-table algorithm, and declared maxima are
re-checked; an empty slice of static objects is left nil (absent), as the
source's post-decode comment requires. -/

/-- Read a fixed-width field, zero-padding a short read (never hit after the
static-length guard). -/
def fitN (n : Nat) (b : List Nat) : BVec n :=
  ⟨b.take n ++ List.replicate (n - b.length) 0, by
    simp only [List.length_append, List.length_take, List.length_replicate]
    omega⟩

/-- Element sizes of a variable-element list, from its offset table and total
region size; `none` when the offsets are out of order or out of bounds. -/
def offsetSizes : List Nat → Nat → Option (List Nat)
  | [], _ => some []
  | [o], e => if o ≤ e then some [e - o] else none
  | o :: o2 :: rest, e =>
    if o ≤ o2 then (offsetSizes (o2 :: rest) e).map (fun ss => (o2 - o) :: ss) else none

/-- Read `count` 4-byte little-endian offsets, returning them and the rest of
the region. -/
def parseOffsets : Nat → List Nat → Option (List Nat × List Nat)
  | 0, b => some ([], b)
  | k + 1, b =>
    if 4 ≤ b.length then
      match parseOffsets k (b.drop 4) with
      | some (os, r) => some (byteListToNatLE (b.take 4) :: os, r)
      | none => none
    else none

/-- Split a byte list into consecutive slices of the given sizes, consuming it
exactly. -/
def splitSizes : List Nat → List Nat → Option (List (List Nat))
  | [], b => if b = [] then some [] else none
  | n :: ns, b =>
    if n ≤ b.length then
      match splitSizes ns (b.drop n) with
      | some xs => some (b.take n :: xs)
      | none => none
    else none

/-- Decode a list of variable-byte elements from its region (offset table then
contents), validating counts, offsets and element sizes. -/
def parseDynList (maxCount maxLen : Nat) (region : List Nat) : Except SSZErr (List (List Nat)) :=
  if region.length = 0 then .ok []
  else if region.length < 4 then .error .truncated
  else
    let first := byteListToNatLE (region.take 4)
    if first % 4 ≠ 0 ∨ first = 0 then .error .offsetOutOfBounds
    else
      let count := first / 4
      if maxCount < count then .error .capacityExceeded
      else
        match parseOffsets count region with
        | none => .error .truncated
        | some (offs, content) =>
          match offs with
          | [] => .error .truncated
          | o1 :: _ =>
            if o1 ≠ 4 * count then .error .offsetOutOfBounds
            else
              match offsetSizes offs region.length with
              | none => .error .offsetOutOfOrder
              | some sizes =>
                if sizes.all (fun sz => sz ≤ maxLen) then
                  match splitSizes sizes content with
                  | some elems => .ok elems
                  | none => .error .truncated
                else .error .capacityExceeded

/-- Decode one 44-byte withdrawal. -/
def parseWithdrawal (b : List Nat) : Withdrawal :=
  { index := byteListToNatLE (b.take 8)
    validatorIndex := byteListToNatLE ((b.drop 8).take 8)
    address := fitN 20 ((b.drop 16).take 20)
    amount := byteListToNatLE ((b.drop 36).take 8) }

/-- Decode `count` consecutive 44-byte withdrawals. -/
def parseWithdrawalsList : Nat → List Nat → List Withdrawal
  | 0, _ => []
  | k + 1, b => parseWithdrawal (b.take 44) :: parseWithdrawalsList k (b.drop 44)

/-- Decode the withdrawals region; an empty region leaves the field nil. -/
def parseWithdrawals (region : List Nat) : Except SSZErr (Option (List Withdrawal)) :=
  if region.length = 0 then .ok none
  else if region.length % 44 ≠ 0 then .error .badLength
  else
    let count := region.length / 44
    if maxWithdrawalsPerPayload < count then .error .capacityExceeded
    else .ok (some (parseWithdrawalsList count region))

/-- `ssz.DecodeFromBytes` at the `ExecutionPayload` schema, decoding into a
fresh payload tagged with fork version `v`. -/
def decodeSSZ (v : Version) (buf : List Nat) : Except SSZErr ExecutionPayload :=
  if buf.length < executionPayloadStaticSize then .error .truncated
  else
    let parentHash := fitN 32 buf
    let b1 := buf.drop 32
    let feeRecipient := fitN 20 b1
    let b2 := b1.drop 20
    let stateRoot := fitN 32 b2
    let b3 := b2.drop 32
    let receiptsRoot := fitN 32 b3
    let b4 := b3.drop 32
    let logsBloom := fitN 256 b4
    let b5 := b4.drop 256
    let random := fitN 32 b5
    let b6 := b5.drop 32
    let number := byteListToNatLE (b6.take 8)
    let b7 := b6.drop 8
    let gasLimit := byteListToNatLE (b7.take 8)
    let b8 := b7.drop 8
    let gasUsed := byteListToNatLE (b8.take 8)
    let b9 := b8.drop 8
    let timestamp := byteListToNatLE (b9.take 8)
    let b10 := b9.drop 8
    let off1 := byteListToNatLE (b10.take 4)
    let b11 := b10.drop 4
    let baseFee := byteListToNatLE (b11.take 32)
    let b12 := b11.drop 32
    let blockHash := fitN 32 b12
    let b13 := b12.drop 32
    let off2 := byteListToNatLE (b13.take 4)
    let b14 := b13.drop 4
    let off3 := byteListToNatLE (b14.take 4)
    let b15 := b14.drop 4
    let blobGasUsed := byteListToNatLE (b15.take 8)
    let b16 := b15.drop 8
    let excessBlobGas := byteListToNatLE (b16.take 8)
    let dyn := b16.drop 8
    if off1 ≠ executionPayloadStaticSize then .error .offsetOutOfBounds
    else if off2 < off1 then .error .offsetOutOfOrder
    else if off3 < off2 then .error .offsetOutOfOrder
    else if buf.length < off3 then .error .offsetOutOfBounds
    else if maxExtraDataSize < off2 - off1 then .error .capacityExceeded
    else
      let extra := dyn.take (off2 - off1)
      let txRegion := (dyn.drop (off2 - off1)).take (off3 - off2)
      let wRegion := dyn.drop (off3 - off1)
      match parseDynList maxTxsPerPayload maxBytesPerTx txRegion with
      | .error e => .error e
      | .ok txs =>
        match parseWithdrawals wRegion with
        | .error e => .error e
        | .ok w =>
          .ok { version := v
                parentHash := parentHash
                feeRecipient := feeRecipient
                stateRoot := stateRoot
                receiptsRoot := receiptsRoot
                logsBloom := logsBloom
                random := random
                number := number
                gasLimit := gasLimit
                gasUsed := gasUsed
                timestamp := timestamp
                extraData := extra
                baseFeePerGas := some baseFee
                blockHash := blockHash
                transactions := txs
                withdrawals := w
                blobGasUsed := blobGasUsed
                excessBlobGas := excessBlobGas }

/-- Full decode as the source's unmarshalling flow runs it: structural decode
followed by `ValidateAfterDecodingSSZ`. -/
def unmarshalSSZ (v : Version) (buf : List Nat) : Except SSZErr ExecutionPayload :=
  match decodeSSZ v buf with
  | .ok p => validateAfterDecodingSSZ p
  | .error e => .error e

/-! ## Merkleization

Both hashers are parametrised by the pairwise compression function
`H : chunk → chunk → chunk` (an external cryptographic collaborator per the
spec, section 4.4); all agreement theorems hold for every `H` that returns
32-byte chunks. -/

/-- A 32-byte zero chunk. -/
def zeroChunk : List Nat := List.replicate 32 0

/-- Zero-subtree root at a given depth. -/
def zeroHash (H : List Nat → List Nat → List Nat) : Nat → List Nat
  | 0 => zeroChunk
  | d + 1 => H (zeroHash H d) (zeroHash H d)

/-- Bottom-up Merkle root of a chunk list over `2^depth` leaf slots, unused
slots holding zero chunks (the tree depth is fixed by the declared capacity,
not the actual length). -/
def merkleize (H : List Nat → List Nat → List Nat) : Nat → List (List Nat) → List Nat
  | 0, [] => zeroChunk
  | 0, c :: _ => c
  | d + 1, [] => zeroHash H (d + 1)
  | d + 1, c :: cs =>
    H (merkleize H d ((c :: cs).take (2 ^ d))) (merkleize H d ((c :: cs).drop (2 ^ d)))

/-- Number of zero bytes needed to reach the next 32-byte boundary. -/
def padLen (n : Nat) : Nat := (32 - n % 32) % 32

/-- Zero-pad a byte list to a 32-byte boundary. -/
def fill32 (s : List Nat) : List Nat := s ++ List.replicate (padLen s.length) 0

/-- Group a byte list into consecutive 32-byte chunks (fuelled structural
recursion; the fuel is the list length). -/
def toChunksF : Nat → List Nat → List (List Nat)
  | _, [] => []
  | 0, _ :: _ => []
  | f + 1, s => s.take 32 :: toChunksF f (s.drop 32)

/-- Group a byte list into consecutive 32-byte chunks. -/
def toChunks (s : List Nat) : List (List Nat) := toChunksF s.length s

/-- Smallest `d` with `n ≤ 2^d` (fuelled structural recursion). -/
def ceillog2F : Nat → Nat → Nat
  | 0, _ => 0
  | f + 1, n => if n ≤ 1 then 0 else ceillog2F f ((n + 1) / 2) + 1

/-- Smallest `d` with `n ≤ 2^d`. -/
def ceillog2 (n : Nat) : Nat := ceillog2F n n

/-- Length/count mixin chunk: the value as a 64-bit little-endian integer
left-padded with zero bytes to 32 bytes. -/
def lenChunk (n : Nat) : List Nat := u64le n ++ List.replicate 24 0

/-- Mix a subtree root with the actual length/count. -/
def mixinLength (H : List Nat → List Nat → List Nat) (root : List Nat) (n : Nat) : List Nat :=
  H root (lenChunk n)

/-- A value of at most 32 bytes as a single zero-padded chunk. -/
def chunk32 (b : List Nat) : List Nat := fill32 b

/-- A `uint64` as a little-endian zero-padded chunk. -/
def u64chunk (n : Nat) : List Nat := fill32 (u64le n)

/-- Chunk-pad a byte field and group it into 32-byte leaves. -/
def chunksOfBytes (b : List Nat) : List (List Nat) := toChunks (fill32 b)

/-! ### Generic schema-driven hasher

Modelled from the spec: `ssz.HashConcurrent` / the generic Merkleizer of
`karalabe/ssz` is not under `src/`; the spec (section 4.4) defines the
recursive hash-tree-root, instantiated here at the exact `DefineSSZ` schema of
the source (field order, chunk capacities and list maxima). -/

/-- Root of the 256-byte logs bloom: 8 chunks over 8 leaf slots. -/
def bloomRoot (H : List Nat → List Nat → List Nat) (b : List Nat) : List Nat :=
  merkleize H 3 (chunksOfBytes b)

/-- Root of `ExtraData` (max 32 bytes = 1 chunk slot, mixed with length). -/
def extraDataRoot (H : List Nat → List Nat → List Nat) (b : List Nat) : List Nat :=
  mixinLength H (merkleize H 0 (chunksOfBytes b)) b.length

/-- Root of one transaction (max 2^30 bytes = 2^25 chunk slots, mixed with
byte length). -/
def txRoot (H : List Nat → List Nat → List Nat) (tx : List Nat) : List Nat :=
  mixinLength H (merkleize H 25 (chunksOfBytes tx)) tx.length

/-- Root of the transactions list (max 2^20 element slots, mixed with count). -/
def txsRoot (H : List Nat → List Nat → List Nat) (txs : List (List Nat)) : List Nat :=
  mixinLength H (merkleize H 20 (txs.map (txRoot H))) txs.length

/-- Root of one withdrawal: 4 field chunks over 4 leaf slots. -/
def withdrawalRoot (H : List Nat → List Nat → List Nat) (w : Withdrawal) : List Nat :=
  merkleize H 2
    [u64chunk w.index, u64chunk w.validatorIndex, chunk32 w.address.val, u64chunk w.amount]

/-- Root of the withdrawals list (max 16 element slots, mixed with count). -/
def withdrawalsRoot (H : List Nat → List Nat → List Nat) (ws : List Withdrawal) : List Nat :=
  mixinLength H (merkleize H 4 (ws.map (withdrawalRoot H))) ws.length

/-- The 17 field roots of the `ExecutionPayload` container, in `DefineSSZ`
declaration order. -/
def fieldRoots (H : List Nat → List Nat → List Nat) (p : ExecutionPayload) : List (List Nat) :=
  [chunk32 p.parentHash.val, chunk32 p.feeRecipient.val, chunk32 p.stateRoot.val,
   chunk32 p.receiptsRoot.val, bloomRoot H p.logsBloom.val, chunk32 p.random.val,
   u64chunk p.number, u64chunk p.gasLimit, u64chunk p.gasUsed, u64chunk p.timestamp,
   extraDataRoot H p.extraData, chunk32 (u256le (p.baseFeePerGas.getD 0)),
   chunk32 p.blockHash.val, txsRoot H p.transactions,
   withdrawalsRoot H (p.withdrawals.getD []), u64chunk p.blobGasUsed,
   u64chunk p.excessBlobGas]

/-- `HashTreeRoot`: the generic schema-driven hash-tree-root of the payload —
17 field roots merkleized over 32 leaf slots, no length mixin at the record
level. -/
def hashTreeRoot (H : List Nat → List Nat → List Nat) (p : ExecutionPayload) : List Nat :=
  merkleize H 5 (fieldRoots H p)

/-! ### Streaming hash walker

Modelled from the spec: the `fastssz` hash walker is not under `src/`;
the spec (sections 2, 4.4) describes it as a streaming hasher over a byte
buffer — values are appended as zero-padded chunks, and `Merkleize`-style
operations replace the buffer suffix starting at a captured index by the
Merkle root of its chunks (with a length mixin where the schema requires
one).  The call sequence below (`hashTreeRootWith`) is translated line by
line from the source's `HashTreeRootWith`. -/

/-- `Hasher.PutUint64`: append 8 little-endian bytes and fill to the next
32-byte boundary. -/
def hwPutUint64 (n : Nat) (s : List Nat) : List Nat := fill32 (s ++ u64le n)

/-- `Hasher.Merkleize(indx)`: replace the chunks appended after `indx` by
their Merkle root, the leaf count padded to the next power of two. -/
def hwMerkleize (H : List Nat → List Nat → List Nat) (indx : Nat) (s : List Nat) : List Nat :=
  let cs := toChunks (s.drop indx)
  s.take indx ++ merkleize H (ceillog2 cs.length) cs

/-- `Hasher.PutBytes`: append as zero-padded chunks; content longer than one
chunk is merkleized in place. -/
def hwPutBytes (H : List Nat → List Nat → List Nat) (b : List Nat) (s : List Nat) : List Nat :=
  if b.length ≤ 32 then fill32 (s ++ b)
  else hwMerkleize H s.length (fill32 (s ++ b))

/-- `Hasher.MerkleizeWithMixin(indx, num, limit)`: fill to a 32-byte boundary,
merkleize the chunks after `indx` over `limit` leaf slots and mix in the
actual count `num`. -/
def hwMerkleizeWithMixin (H : List Nat → List Nat → List Nat)
    (indx num limit : Nat) (s : List Nat) : List Nat :=
  let s' := fill32 s
  let cs := toChunks (s'.drop indx)
  s'.take indx ++ mixinLength H (merkleize H (ceillog2 limit) cs) num

/-- `Withdrawal.HashTreeRootWith`: stream the four static fields and
merkleize them in place (modelled from the spec: a `ListOfStaticObjects`
element hashes as its own container root). -/
def withdrawalHTRW (H : List Nat → List Nat → List Nat) (w : Withdrawal)
    (s : List Nat) : List Nat :=
  let indx := s.length
  let s := hwPutUint64 w.index s
  let s := hwPutUint64 w.validatorIndex s
  let s := hwPutBytes H w.address.val s
  let s := hwPutUint64 w.amount s
  hwMerkleize H indx s

/-- The `Transactions` loop of `HashTreeRootWith`: each element is appended as
zero-padded chunks and merkleized over 2^25 chunk slots with a byte-length
mixin; an element longer than 1073741824 bytes aborts with
`ErrIncorrectListSize`. -/
def txLoop (H : List Nat → List Nat → List Nat) :
    List (List Nat) → List Nat → Except SSZErr (List Nat)
  | [], s => .ok s
  | tx :: rest, s =>
    if maxBytesPerTx < tx.length then .error .incorrectListSize
    else
      let elemIndx := s.length
      let s := fill32 (s ++ tx)
      txLoop H rest (hwMerkleizeWithMixin H elemIndx tx.length 33554432 s)

/-- The withdrawals / blob-gas / final-merkleize tail of `HashTreeRootWith`
(fields 14-16 and the closing `hh.Merkleize(indx)`). -/
def htrwTail (H : List Nat → List Nat → List Nat) (p : ExecutionPayload)
    (indx : Nat) (s : List Nat) : Except SSZErr (List Nat) :=
  let subIndx2 := s.length
  let ws := p.withdrawals.getD []
  if maxWithdrawalsPerPayload < ws.length then .error .incorrectListSize
  else
    let s := ws.foldl (fun s w => withdrawalHTRW H w s) s
    let s := hwMerkleizeWithMixin H subIndx2 ws.length 16 s
    let s := hwPutUint64 p.blobGasUsed s
    let s := hwPutUint64 p.excessBlobGas s
    .ok (hwMerkleize H indx s)

/-- The transactions list block of `HashTreeRootWith` (field 13) followed by
the tail. -/
def htrwTxs (H : List Nat → List Nat → List Nat) (p : ExecutionPayload)
    (indx : Nat) (s : List Nat) : Except SSZErr (List Nat) :=
  let subIndx := s.length
  if maxTxsPerPayload < p.transactions.length then .error .incorrectListSize
  else
    match txLoop H p.transactions s with
    | .error e => .error e
    | .ok s => htrwTail H p indx (hwMerkleizeWithMixin H subIndx p.transactions.length 1048576 s)

/-- `HashTreeRootWith`: the streaming hasher of the source, translated block
by block in source order; returns the final walker buffer. -/
def hashTreeRootWith (H : List Nat → List Nat → List Nat) (p : ExecutionPayload)
    (s0 : List Nat) : Except SSZErr (List Nat) :=
  let indx := s0.length
  let s := hwPutBytes H p.parentHash.val s0
  let s := hwPutBytes H p.feeRecipient.val s
  let s := hwPutBytes H p.stateRoot.val s
  let s := hwPutBytes H p.receiptsRoot.val s
  let s := hwPutBytes H p.logsBloom.val s
  let s := hwPutBytes H p.random.val s
  let s := hwPutUint64 p.number s
  let s := hwPutUint64 p.gasLimit s
  let s := hwPutUint64 p.gasUsed s
  let s := hwPutUint64 p.timestamp s
  -- Field (10) ExtraData
  let elemIndx := s.length
  if maxExtraDataSize < p.extraData.length then .error .incorrectListSize
  else
    let s := s ++ p.extraData
    let s := hwMerkleizeWithMixin H elemIndx p.extraData.length 1 s
    -- Field (11) BaseFeePerGas: hh.PutBytes(p.BaseFeePerGas.MarshalSSZ())
    let s := hwPutBytes H (u256le (p.baseFeePerGas.getD 0)) s
    let s := hwPutBytes H p.blockHash.val s
    -- Fields (13)-(16) and the final Merkleize
    htrwTxs H p indx s

/-! ## Header projection -/

/-- `ExecutionPayloadHeader`: the header shape `ToHeader` projects into, with
the two bulk lists replaced by their hash-tree-roots. -/
structure ExecutionPayloadHeader where
  version : Version
  parentHash : BVec 32
  feeRecipient : BVec 20
  stateRoot : BVec 32
  receiptsRoot : BVec 32
  logsBloom : BVec 256
  random : BVec 32
  number : Nat
  gasLimit : Nat
  gasUsed : Nat
  timestamp : Nat
  extraData : List Nat
  baseFeePerGas : Option Nat
  blockHash : BVec 32
  transactionsRoot : List Nat
  withdrawalsRoot : List Nat
  blobGasUsed : Nat
  excessBlobGas : Nat
deriving DecidableEq

/-- `ToHeader`: defined for the Deneb, Deneb1, Electra and Electra1 forks;
copies every scalar/fixed field, carries the version tag over, and replaces
`Transactions` and `Withdrawals` by their hash-tree-roots
(`engineprimitives.Transactions.HashTreeRoot` and
`engineprimitives.Withdrawals.HashTreeRoot` are modelled from the spec as the
same list Merkleization the payload schema uses for those fields). -/
def toHeader (H : List Nat → List Nat → List Nat) (p : ExecutionPayload) :
    Except String ExecutionPayloadHeader :=
  if p.version = .deneb ∨ p.version = .deneb1 ∨ p.version = .electra ∨ p.version = .electra1
  then
    .ok { version := p.version
          parentHash := p.parentHash
          feeRecipient := p.feeRecipient
          stateRoot := p.stateRoot
          receiptsRoot := p.receiptsRoot
          logsBloom := p.logsBloom
          random := p.random
          number := p.number
          gasLimit := p.gasLimit
          gasUsed := p.gasUsed
          timestamp := p.timestamp
          extraData := p.extraData
          baseFeePerGas := p.baseFeePerGas
          blockHash := p.blockHash
          transactionsRoot := txsRoot H p.transactions
          withdrawalsRoot := withdrawalsRoot H (p.withdrawals.getD [])
          blobGasUsed := p.blobGasUsed
          excessBlobGas := p.excessBlobGas }
  else .error "unknown fork version"

/-! ## JSON decoding

`UnmarshalJSON` first parses the input into an auxiliary struct whose fields
are all pointers (or nil-able slices); a field absent from — or null in — the
JSON object leaves the corresponding pointer nil.  The textual JSON parser
itself is an external collaborator (spec section 6); the model starts from the
parsed auxiliary struct and translates the source's field-presence logic line
by line. -/

/-- The parsed auxiliary struct of `UnmarshalJSON`: one `Option` per JSON
field (`none` = absent or null). -/
structure ExecutionPayloadJSON where
  parentHash : Option (BVec 32)
  feeRecipient : Option (BVec 20)
  stateRoot : Option (BVec 32)
  receiptsRoot : Option (BVec 32)
  logsBloom : Option (BVec 256)
  random : Option (BVec 32)
  number : Option Nat
  gasLimit : Option Nat
  gasUsed : Option Nat
  timestamp : Option Nat
  extraData : Option (List Nat)
  baseFeePerGas : Option Nat
  blockHash : Option (BVec 32)
  transactions : Option (List (List Nat))
  withdrawals : Option (List Withdrawal)
  blobGasUsed : Option Nat
  excessBlobGas : Option Nat

/-- The missing-required-field messages `UnmarshalJSON` can fail with. -/
def missingFieldMsgs : List String :=
  ["parentHash", "feeRecipient", "stateRoot", "receiptsRoot", "logsBloom", "prevRandao",
   "blockNumber", "gasLimit", "gasUsed", "timestamp", "extraData", "baseFeePerGas",
   "blockHash", "transactions"].map
    (fun name => "missing required field " ++ name ++ " for ExecutionPayload")

/-- `UnmarshalJSON` after the textual parse: require the fourteen mandatory
fields, copying each into the receiver `p`; `withdrawals`, `blobGasUsed` and
`excessBlobGas` are copied only when present, otherwise the receiver's value
is kept. -/
def unmarshalJSON (p : ExecutionPayload) (dec : ExecutionPayloadJSON) :
    Except String ExecutionPayload :=
  match dec.parentHash with
  | none => .error "missing required field parentHash for ExecutionPayload"
  | some parentHash =>
  match dec.feeRecipient with
  | none => .error "missing required field feeRecipient for ExecutionPayload"
  | some feeRecipient =>
  match dec.stateRoot with
  | none => .error "missing required field stateRoot for ExecutionPayload"
  | some stateRoot =>
  match dec.receiptsRoot with
  | none => .error "missing required field receiptsRoot for ExecutionPayload"
  | some receiptsRoot =>
  match dec.logsBloom with
  | none => .error "missing required field logsBloom for ExecutionPayload"
  | some logsBloom =>
  match dec.random with
  | none => .error "missing required field prevRandao for ExecutionPayload"
  | some random =>
  match dec.number with
  | none => .error "missing required field blockNumber for ExecutionPayload"
  | some number =>
  match dec.gasLimit with
  | none => .error "missing required field gasLimit for ExecutionPayload"
  | some gasLimit =>
  match dec.gasUsed with
  | none => .error "missing required field gasUsed for ExecutionPayload"
  | some gasUsed =>
  match dec.timestamp with
  | none => .error "missing required field timestamp for ExecutionPayload"
  | some timestamp =>
  match dec.extraData with
  | none => .error "missing required field extraData for ExecutionPayload"
  | some extraData =>
  match dec.baseFeePerGas with
  | none => .error "missing required field baseFeePerGas for ExecutionPayload"
  | some baseFeePerGas =>
  match dec.blockHash with
  | none => .error "missing required field blockHash for ExecutionPayload"
  | some blockHash =>
  match dec.transactions with
  | none => .error "missing required field transactions for ExecutionPayload"
  | some transactions =>
    .ok { p with
          parentHash := parentHash
          feeRecipient := feeRecipient
          stateRoot := stateRoot
          receiptsRoot := receiptsRoot
          logsBloom := logsBloom
          random := random
          number := number
          gasLimit := gasLimit
          gasUsed := gasUsed
          timestamp := timestamp
          extraData := extraData
          baseFeePerGas := some baseFeePerGas
          blockHash := blockHash
          transactions := transactions
          withdrawals := match dec.withdrawals with
                         | some w => some w
                         | none => p.withdrawals
          blobGasUsed := dec.blobGasUsed.getD p.blobGasUsed
          excessBlobGas := dec.excessBlobGas.getD p.excessBlobGas }

/-! ## Basic length lemmas -/

theorem u32le_length (n : Nat) : (u32le n).length = 4 := natToBytesLE_length 4 n
theorem u64le_length (n : Nat) : (u64le n).length = 8 := natToBytesLE_length 8 n
theorem u256le_length (n : Nat) : (u256le n).length = 32 := natToBytesLE_length 32 n

theorem encodeWithdrawal_length (w : Withdrawal) : (encodeWithdrawal w).length = 44 := by
  simp [encodeWithdrawal, u64le_length, w.address.2]

theorem encodeTxOffsets_length (base : Nat) (txs : List (List Nat)) :
    (encodeTxOffsets base txs).length = 4 * txs.length := by
  induction txs generalizing base with
  | nil => rfl
  | cons tx rest ih =>
    simp [encodeTxOffsets, u32le_length, ih]
    omega

theorem encodeTxs_length (txs : List (List Nat)) :
    (encodeTxs txs).length = txsSize txs := by
  unfold encodeTxs txsSize
  rw [List.length_append, encodeTxOffsets_length, List.length_flatten]
  induction txs with
  | nil => rfl
  | cons tx rest ih =>
    simp only [List.map_cons, List.sum_cons, List.length_cons] at *
    omega

theorem withdrawalsContent_length (ws : List Withdrawal) :
    ((ws.map encodeWithdrawal).flatten).length = 44 * ws.length := by
  rw [List.length_flatten, List.map_map]
  induction ws with
  | nil => rfl
  | cons w rest ih =>
    simp only [List.map_cons, List.sum_cons, List.length_cons, Function.comp_apply,
      encodeWithdrawal_length] at *
    omega

theorem staticRegion_length (p : ExecutionPayload) :
    (staticRegion p).length = executionPayloadStaticSize := by
  simp [staticRegion, u32le_length, u64le_length, u256le_length,
    p.parentHash.2, p.feeRecipient.2, p.stateRoot.2, p.receiptsRoot.2,
    p.logsBloom.2, p.random.2, p.blockHash.2, executionPayloadStaticSize]

theorem txsSize_eq (txs : List (List Nat)) :
    txsSize txs = 4 * txs.length + (txs.map List.length).sum := by
  unfold txsSize
  induction txs with
  | nil => rfl
  | cons tx rest ih =>
    simp only [List.map_cons, List.sum_cons, List.length_cons] at *
    omega

theorem dynamicRegion_length (p : ExecutionPayload) :
    (dynamicRegion p).length
      = p.extraData.length + txsSize p.transactions
          + 44 * (p.withdrawals.getD []).length := by
  unfold dynamicRegion
  rw [List.length_append, List.length_append, encodeTxs_length, withdrawalsContent_length]

theorem encodePayload_length (p : ExecutionPayload) (bz : List Nat)
    (h : encodePayload p = .ok bz) : bz.length = encodedSize p := by
  unfold encodePayload at h
  by_cases hv : capacityViolated p
  · simp [hv] at h
  · simp [hv] at h
    subst h
    rw [List.length_append, staticRegion_length, dynamicRegion_length]
    simp only [encodedSize, executionPayloadStaticSize, txsSize]
    omega

/-! ## Claims C4 and C9 -/

/-- Claim C4: for every decoded payload whose fork version is at or after
Capella and whose withdrawals field is nil, `ValidateAfterDecodingSSZ`
normalizes the withdrawals to a non-nil empty list; for a payload whose fork
version is before Capella a nil withdrawals field is left nil (absent). -/
theorem validateAfterDecodingSSZ_withdrawals (p : ExecutionPayload)
    (h : p.withdrawals = none) :
    (equalsOrIsAfter p.version .capella = true →
        validateAfterDecodingSSZ p = .ok { p with withdrawals := some [] })
      ∧ (equalsOrIsAfter p.version .capella = false →
        validateAfterDecodingSSZ p = .ok p) := by
  constructor <;> intro hv <;> simp [validateAfterDecodingSSZ, h, hv]

/-- A Deneb payload with a nil withdrawals field (decode of a buffer with an
empty withdrawals region). -/
def pDenebNilW : ExecutionPayload :=
  { newEmptyExecutionPayloadWithVersion .deneb with withdrawals := none }

/-- A Bellatrix payload with a nil withdrawals field. -/
def pBellatrixNilW : ExecutionPayload :=
  { newEmptyExecutionPayloadWithVersion .bellatrix with withdrawals := none }

/-- Witness for C4 at concrete inputs: Deneb normalizes nil withdrawals to an
empty list, Bellatrix leaves them nil. -/
theorem validateAfterDecodingSSZ_withdrawals_witness :
    validateAfterDecodingSSZ pDenebNilW = .ok { pDenebNilW with withdrawals := some [] }
      ∧ validateAfterDecodingSSZ pBellatrixNilW = .ok pBellatrixNilW :=
  ⟨(validateAfterDecodingSSZ_withdrawals pDenebNilW rfl).1 rfl,
   (validateAfterDecodingSSZ_withdrawals pBellatrixNilW rfl).2 rfl⟩

/-- Claim C9: `ValidateAfterDecodingSSZ` returns no error for any payload,
whatever its fork version or field contents: the missing-required-field
failure mode is unreachable at this interface. -/
theorem validateAfterDecodingSSZ_never_fails (p : ExecutionPayload) :
    (validateAfterDecodingSSZ p).isOk = true := by
  unfold validateAfterDecodingSSZ
  split <;> rfl

/-! ## Claim C7 -/

/-- Claim C7: `NewEmptyExecutionPayloadWithVersion v` is tagged with version
`v`, has a non-nil zero `BaseFeePerGas`, has a non-nil empty withdrawals list
exactly when `v` is at or after Capella and nil withdrawals otherwise, and has
all remaining fields zero-valued. -/
theorem newEmptyExecutionPayloadWithVersion_spec (v : Version) :
    (newEmptyExecutionPayloadWithVersion v).version = v
      ∧ (newEmptyExecutionPayloadWithVersion v).baseFeePerGas = some 0
      ∧ (equalsOrIsAfter v .capella = true →
          (newEmptyExecutionPayloadWithVersion v).withdrawals = some [])
      ∧ (equalsOrIsAfter v .capella = false →
          (newEmptyExecutionPayloadWithVersion v).withdrawals = none)
      ∧ (newEmptyExecutionPayloadWithVersion v).parentHash = BVec.zero 32
      ∧ (newEmptyExecutionPayloadWithVersion v).feeRecipient = BVec.zero 20
      ∧ (newEmptyExecutionPayloadWithVersion v).stateRoot = BVec.zero 32
      ∧ (newEmptyExecutionPayloadWithVersion v).receiptsRoot = BVec.zero 32
      ∧ (newEmptyExecutionPayloadWithVersion v).logsBloom = BVec.zero 256
      ∧ (newEmptyExecutionPayloadWithVersion v).random = BVec.zero 32
      ∧ (newEmptyExecutionPayloadWithVersion v).number = 0
      ∧ (newEmptyExecutionPayloadWithVersion v).gasLimit = 0
      ∧ (newEmptyExecutionPayloadWithVersion v).gasUsed = 0
      ∧ (newEmptyExecutionPayloadWithVersion v).timestamp = 0
      ∧ (newEmptyExecutionPayloadWithVersion v).extraData = []
      ∧ (newEmptyExecutionPayloadWithVersion v).blockHash = BVec.zero 32
      ∧ (newEmptyExecutionPayloadWithVersion v).transactions = []
      ∧ (newEmptyExecutionPayloadWithVersion v).blobGasUsed = 0
      ∧ (newEmptyExecutionPayloadWithVersion v).excessBlobGas = 0 := by
  refine ⟨rfl, rfl, ?_, ?_, rfl, rfl, rfl, rfl, rfl, rfl, rfl, rfl, rfl, rfl, rfl,
    rfl, rfl, rfl, rfl⟩
  all_goals intro hv
  all_goals simp [newEmptyExecutionPayloadWithVersion, hv]

/-- Witness for C7 at concrete versions: Capella gets an empty withdrawals
list, Bellatrix gets nil withdrawals. -/
theorem newEmptyExecutionPayloadWithVersion_witness :
    (newEmptyExecutionPayloadWithVersion .capella).withdrawals = some []
      ∧ (newEmptyExecutionPayloadWithVersion .bellatrix).withdrawals = none
      ∧ (newEmptyExecutionPayloadWithVersion .capella).baseFeePerGas = some 0 :=
  ⟨(newEmptyExecutionPayloadWithVersion_spec .capella).2.2.1 rfl,
   (newEmptyExecutionPayloadWithVersion_spec .bellatrix).2.2.2.1 rfl,
   (newEmptyExecutionPayloadWithVersion_spec .capella).2.1⟩


/-! ## Claim C5 -/

theorem isOk_ok {ε α : Type} (a : α) : (Except.ok a : Except ε α).isOk = true := rfl

theorem isOk_error {ε α : Type} (e : ε) : (Except.error e : Except ε α).isOk = false := rfl

theorem txLoop_ok_iff (H : List Nat → List Nat → List Nat) (txs : List (List Nat))
    (s : List Nat) :
    (txLoop H txs s).isOk = true ↔ ∀ tx ∈ txs, tx.length ≤ maxBytesPerTx := by
  induction txs generalizing s with
  | nil => simp [txLoop, isOk_ok]
  | cons tx rest ih =>
    by_cases h : maxBytesPerTx < tx.length
    · simp only [txLoop, if_pos h, isOk_error, List.forall_mem_cons]
      constructor
      · intro hfalse
        exact absurd hfalse (by simp)
      · intro hall
        omega
    · simp only [txLoop, if_neg h, ih, List.forall_mem_cons]
      exact ⟨fun hall => ⟨by omega, hall⟩, fun hall => hall.2⟩

theorem htrwTail_isOk (H : List Nat → List Nat → List Nat) (p : ExecutionPayload)
    (indx : Nat) (s : List Nat) :
    (htrwTail H p indx s).isOk = true
      ↔ (p.withdrawals.getD []).length ≤ maxWithdrawalsPerPayload := by
  unfold htrwTail
  by_cases h : maxWithdrawalsPerPayload < (p.withdrawals.getD []).length
  · simp only [if_pos h, isOk_error, Bool.false_eq_true, false_iff]
    omega
  · simp only [if_neg h, isOk_ok, true_iff]
    omega

theorem htrwTxs_isOk (H : List Nat → List Nat → List Nat) (p : ExecutionPayload)
    (indx : Nat) (s : List Nat) :
    (htrwTxs H p indx s).isOk = true
      ↔ p.transactions.length ≤ maxTxsPerPayload
          ∧ (∀ tx ∈ p.transactions, tx.length ≤ maxBytesPerTx)
          ∧ (p.withdrawals.getD []).length ≤ maxWithdrawalsPerPayload := by
  unfold htrwTxs
  by_cases h : maxTxsPerPayload < p.transactions.length
  · simp only [if_pos h, isOk_error, Bool.false_eq_true, false_iff]
    intro hc
    omega
  · simp only [if_neg h]
    cases htx : txLoop H p.transactions s with
    | error e =>
      have hiff := txLoop_ok_iff H p.transactions s
      rw [htx] at hiff
      simp only [isOk_error, Bool.false_eq_true, false_iff] at hiff
      simp only [isOk_error, Bool.false_eq_true, false_iff]
      intro hc
      exact hiff hc.2.1
    | ok s2 =>
      have hiff := txLoop_ok_iff H p.transactions s
      rw [htx] at hiff
      simp only [isOk_ok, true_iff] at hiff
      rw [htrwTail_isOk]
      constructor
      · intro hw
        exact ⟨by omega, hiff, hw⟩
      · intro hc
        exact hc.2.2

theorem hashTreeRootWith_isOk (H : List Nat → List Nat → List Nat)
    (p : ExecutionPayload) (s0 : List Nat) :
    (hashTreeRootWith H p s0).isOk = true ↔ ¬ capacityViolated p := by
  unfold hashTreeRootWith capacityViolated
  by_cases h1 : maxExtraDataSize < p.extraData.length
  · simp only [if_pos h1, isOk_error, Bool.false_eq_true, false_iff, not_not]
    exact Or.inl h1
  · simp only [if_neg h1, htrwTxs_isOk]
    push_neg
    constructor
    · intro hc
      refine ⟨by omega, hc.1, fun tx hm => ?_, hc.2.2⟩
      exact hc.2.1 tx hm
    · intro hc
      exact ⟨hc.2.1, fun tx hm => hc.2.2.1 tx hm, hc.2.2.2⟩

/-- Claim C5: hashing via `HashTreeRootWith` fails (with the list-size error,
producing no root) exactly when a declared maximum is exceeded — `ExtraData`
longer than 32 bytes, more than 1048576 transactions, a single transaction
longer than 1073741824 bytes, or more than 16 withdrawals — and `MarshalSSZ`
enforces the same maxima, failing before writing any output (its error slot is
set exactly under the same conditions, and the buffer it returns is then still
all zeros). -/
theorem capacity_enforcement (H : List Nat → List Nat → List Nat) (p : ExecutionPayload) :
    ((hashTreeRootWith H p []).isOk = false ↔
        (32 < p.extraData.length ∨ 1048576 < p.transactions.length
          ∨ (∃ tx ∈ p.transactions, 1073741824 < tx.length)
          ∨ 16 < (p.withdrawals.getD []).length))
      ∧ ((marshalSSZ p).2.isSome = true ↔
        (32 < p.extraData.length ∨ 1048576 < p.transactions.length
          ∨ (∃ tx ∈ p.transactions, 1073741824 < tx.length)
          ∨ 16 < (p.withdrawals.getD []).length))
      ∧ ((marshalSSZ p).2.isSome = true →
        (marshalSSZ p).1 = List.replicate (sizeSSZ p false) 0) := by
  have hcv : capacityViolated p ↔
      (32 < p.extraData.length ∨ 1048576 < p.transactions.length
        ∨ (∃ tx ∈ p.transactions, 1073741824 < tx.length)
        ∨ 16 < (p.withdrawals.getD []).length) := by
    unfold capacityViolated maxExtraDataSize maxTxsPerPayload maxBytesPerTx
      maxWithdrawalsPerPayload
    exact Iff.rfl
  refine ⟨?_, ?_, ?_⟩
  · rw [← hcv]
    have h := hashTreeRootWith_isOk H p []
    cases hr : hashTreeRootWith H p [] with
    | ok r =>
      rw [hr] at h
      simp only [isOk_ok, true_iff] at h
      simp only [isOk_ok, Bool.true_eq_false, false_iff]
      exact fun hc => h hc
    | error e =>
      rw [hr] at h
      simp only [isOk_error, Bool.false_eq_true, false_iff, not_not] at h
      simp only [isOk_error, true_iff]
      exact h
  · rw [← hcv]
    unfold marshalSSZ encodePayload
    by_cases hv : capacityViolated p
    · simp [hv]
    · simp [hv]
  · intro herr
    unfold marshalSSZ encodePayload at *
    by_cases hv : capacityViolated p
    · simp [hv]
    · simp [hv] at herr

/-- A payload whose extra data exceeds the declared 32-byte maximum. -/
def pOversizeExtra : ExecutionPayload :=
  { newEmptyExecutionPayloadWithVersion .deneb with extraData := List.replicate 33 0 }

/-- Witness for C5 at a concrete input: with 33 bytes of extra data the
streaming hasher fails and the encoder returns an all-zero buffer with its
error set. -/
theorem capacity_enforcement_witness :
    (hashTreeRootWith (fun a b => a ++ b) pOversizeExtra []).isOk = false
      ∧ (marshalSSZ pOversizeExtra).1 = List.replicate (sizeSSZ pOversizeExtra false) 0 :=
  ⟨(capacity_enforcement (fun a b => a ++ b) pOversizeExtra).1.mpr (Or.inl (by decide)),
   (capacity_enforcement (fun a b => a ++ b) pOversizeExtra).2.2 (by decide)⟩

/-! ## Claim C3 -/

/-- A payload within every declared capacity maximum whose exact encoded size,
528 + 4 * (4 + 2 ^ 30) = 2 ^ 32 + 544, exceeds the `uint32` range in which the
source's `SizeSSZ` accumulates. -/
def pSizeOverflow : ExecutionPayload :=
  { newEmptyExecutionPayloadWithVersion .deneb with
    transactions := List.replicate 4 (List.replicate (2 ^ 30) 0) }

/-- Counterexample to C3 as stated: `SizeSSZ` accumulates in wrapping `uint32`
arithmetic, so for this capacity-legal record its `fixed = false` result is
the total reduced modulo 2 ^ 32 (544), not the static size constant 528 plus
the dynamic sizes (2 ^ 32 + 544). -/
theorem sizeSSZ_counterexample :
    ¬ capacityViolated pSizeOverflow
      ∧ sizeSSZ pSizeOverflow false
          ≠ 528 + pSizeOverflow.extraData.length + txsSize pSizeOverflow.transactions
              + 44 * (pSizeOverflow.withdrawals.getD []).length := by
  have htxs : pSizeOverflow.transactions = List.replicate 4 (List.replicate (2 ^ 30) 0) := rfl
  have hed : pSizeOverflow.extraData = [] := rfl
  have hwd : pSizeOverflow.withdrawals = some [] := rfl
  have htx : txsSize pSizeOverflow.transactions = 2 ^ 32 + 16 := by
    rw [htxs]
    unfold txsSize
    rw [List.map_replicate, List.length_replicate, List.sum_replicate]
    norm_num
  constructor
  · unfold capacityViolated
    push_neg
    refine ⟨by rw [hed]; simp [maxExtraDataSize], ?_, ?_,
      by rw [hwd]; simp [maxWithdrawalsPerPayload]⟩
    · rw [htxs, List.length_replicate]
      norm_num [maxTxsPerPayload]
    · intro tx hmem
      rw [htxs] at hmem
      rw [List.eq_of_mem_replicate hmem, List.length_replicate]
      norm_num [maxBytesPerTx]
  · have h1 : encodedSize pSizeOverflow = 2 ^ 32 + 544 := by
      rw [encodedSize_eq, htx, hed, hwd]
      norm_num
    rw [sizeSSZ_false_eq, h1, htx, hed, hwd]
    norm_num

/-- Claim C3 (amended): `SizeSSZ` with `fixed = false` is computed in `uint32`
arithmetic; whenever the exact encoded size is below 2 ^ 32 it equals the
static size constant 528 plus the dynamic sizes of `ExtraData`, `Transactions`
and `Withdrawals`, and the buffer returned by `MarshalSSZ` then has exactly
that byte length.  The buffer returned on an encoding failure has length
`SizeSSZ(false)` unconditionally, and `SizeSSZ` with `fixed = true` always
returns 528 regardless of the record's contents. -/
theorem marshalSSZ_length_eq_sizeSSZ (p : ExecutionPayload) :
    (encodedSize p < 2 ^ 32 →
        (marshalSSZ p).1.length = sizeSSZ p false
          ∧ sizeSSZ p false
              = 528 + p.extraData.length + txsSize p.transactions
                  + 44 * (p.withdrawals.getD []).length)
      ∧ ((marshalSSZ p).2.isSome = true →
          (marshalSSZ p).1.length = sizeSSZ p false)
      ∧ sizeSSZ p true = 528 := by
  refine ⟨?_, ?_, rfl⟩
  · intro hb
    have hsz : sizeSSZ p false = encodedSize p := by
      rw [sizeSSZ_false_eq]
      exact Nat.mod_eq_of_lt hb
    refine ⟨?_, by rw [hsz, encodedSize_eq]⟩
    rw [hsz]
    unfold marshalSSZ
    cases henc : encodePayload p with
    | ok bz => simpa using encodePayload_length p bz henc
    | error e => simp [hsz]
  · intro h2
    unfold marshalSSZ at h2 ⊢
    cases henc : encodePayload p with
    | ok bz => rw [henc] at h2; simp at h2
    | error e => simp

/-- Witness for C3 at concrete inputs: the empty Deneb payload's buffer length
equals `SizeSSZ(false)` = 528 plus its (zero) dynamic sizes, the all-zero
failure buffer of a record with oversized extra data also has length
`SizeSSZ(false)`, and `SizeSSZ(true)` is 528. -/
theorem marshalSSZ_length_witness :
    ((marshalSSZ (newEmptyExecutionPayloadWithVersion .deneb)).1.length
        = sizeSSZ (newEmptyExecutionPayloadWithVersion .deneb) false
      ∧ sizeSSZ (newEmptyExecutionPayloadWithVersion .deneb) false
          = 528 + (newEmptyExecutionPayloadWithVersion .deneb).extraData.length
              + txsSize (newEmptyExecutionPayloadWithVersion .deneb).transactions
              + 44 * ((newEmptyExecutionPayloadWithVersion .deneb).withdrawals.getD
                  []).length)
      ∧ (marshalSSZ pOversizeExtra).1.length = sizeSSZ pOversizeExtra false
      ∧ sizeSSZ (newEmptyExecutionPayloadWithVersion .deneb) true = 528 :=
  ⟨(marshalSSZ_length_eq_sizeSSZ (newEmptyExecutionPayloadWithVersion .deneb)).1
      (by decide),
   (marshalSSZ_length_eq_sizeSSZ pOversizeExtra).2.1 (by decide),
   (marshalSSZ_length_eq_sizeSSZ (newEmptyExecutionPayloadWithVersion .deneb)).2.2⟩

/-! ## Claim C6 -/

/-- A concrete 32-byte compression function used to instantiate the abstract
hasher parameter in witnesses. -/
def sampleH : List Nat → List Nat → List Nat :=
  fun a b => List.replicate 31 0 ++ [(a.sum + 2 * b.sum + 1) % 256]

theorem sampleH_length (a b : List Nat) : (sampleH a b).length = 32 := by
  simp [sampleH]

/-- Claim C6: `ToHeader` fails exactly when the record's fork version is not
one of Deneb, Deneb1, Electra or Electra1; on success the header carries the
same version tag, copies every scalar and fixed-size field unchanged, and
replaces the `Transactions` and `Withdrawals` lists by their respective
hash-tree-roots. -/
theorem toHeader_spec (H : List Nat → List Nat → List Nat) (p : ExecutionPayload) :
    ((toHeader H p).isOk = true ↔
        (p.version = .deneb ∨ p.version = .deneb1 ∨ p.version = .electra
          ∨ p.version = .electra1))
      ∧ ((p.version = .deneb ∨ p.version = .deneb1 ∨ p.version = .electra
          ∨ p.version = .electra1) →
        toHeader H p = .ok
          { version := p.version
            parentHash := p.parentHash
            feeRecipient := p.feeRecipient
            stateRoot := p.stateRoot
            receiptsRoot := p.receiptsRoot
            logsBloom := p.logsBloom
            random := p.random
            number := p.number
            gasLimit := p.gasLimit
            gasUsed := p.gasUsed
            timestamp := p.timestamp
            extraData := p.extraData
            baseFeePerGas := p.baseFeePerGas
            blockHash := p.blockHash
            transactionsRoot := txsRoot H p.transactions
            withdrawalsRoot := withdrawalsRoot H (p.withdrawals.getD [])
            blobGasUsed := p.blobGasUsed
            excessBlobGas := p.excessBlobGas })
      ∧ (¬ (p.version = .deneb ∨ p.version = .deneb1 ∨ p.version = .electra
            ∨ p.version = .electra1) →
        toHeader H p = .error "unknown fork version") := by
  unfold toHeader
  by_cases hv : p.version = .deneb ∨ p.version = .deneb1 ∨ p.version = .electra
      ∨ p.version = .electra1
  · refine ⟨?_, ?_, ?_⟩
    · simp only [if_pos hv, isOk_ok]
      exact iff_of_true trivial hv
    · intro _
      simp only [if_pos hv]
    · intro hn
      exact absurd hv hn
  · refine ⟨?_, ?_, ?_⟩
    · simp only [if_neg hv, isOk_error]
      exact iff_of_false (by simp) hv
    · intro hs
      exact absurd hs hv
    · intro _
      simp only [if_neg hv]

/-- Witness for C6 at concrete inputs: a Deneb payload projects to the header
with the two list roots, a Capella payload is rejected. -/
theorem toHeader_witness :
    toHeader sampleH (newEmptyExecutionPayloadWithVersion .deneb) = .ok
        { version := (newEmptyExecutionPayloadWithVersion .deneb).version
          parentHash := (newEmptyExecutionPayloadWithVersion .deneb).parentHash
          feeRecipient := (newEmptyExecutionPayloadWithVersion .deneb).feeRecipient
          stateRoot := (newEmptyExecutionPayloadWithVersion .deneb).stateRoot
          receiptsRoot := (newEmptyExecutionPayloadWithVersion .deneb).receiptsRoot
          logsBloom := (newEmptyExecutionPayloadWithVersion .deneb).logsBloom
          random := (newEmptyExecutionPayloadWithVersion .deneb).random
          number := (newEmptyExecutionPayloadWithVersion .deneb).number
          gasLimit := (newEmptyExecutionPayloadWithVersion .deneb).gasLimit
          gasUsed := (newEmptyExecutionPayloadWithVersion .deneb).gasUsed
          timestamp := (newEmptyExecutionPayloadWithVersion .deneb).timestamp
          extraData := (newEmptyExecutionPayloadWithVersion .deneb).extraData
          baseFeePerGas := (newEmptyExecutionPayloadWithVersion .deneb).baseFeePerGas
          blockHash := (newEmptyExecutionPayloadWithVersion .deneb).blockHash
          transactionsRoot := txsRoot sampleH (newEmptyExecutionPayloadWithVersion .deneb).transactions
          withdrawalsRoot := withdrawalsRoot sampleH ((newEmptyExecutionPayloadWithVersion .deneb).withdrawals.getD [])
          blobGasUsed := (newEmptyExecutionPayloadWithVersion .deneb).blobGasUsed
          excessBlobGas := (newEmptyExecutionPayloadWithVersion .deneb).excessBlobGas }
      ∧ toHeader sampleH (newEmptyExecutionPayloadWithVersion .capella)
          = .error "unknown fork version" :=
  ⟨(toHeader_spec sampleH (newEmptyExecutionPayloadWithVersion .deneb)).2.1 (Or.inl rfl),
   (toHeader_spec sampleH (newEmptyExecutionPayloadWithVersion .capella)).2.2 (by decide)⟩

/-! ## Claim C10 -/

/-- All fourteen required JSON fields are present (non-nil after parsing). -/
def jsonRequiredPresent (dec : ExecutionPayloadJSON) : Prop :=
  dec.parentHash ≠ none ∧ dec.feeRecipient ≠ none ∧ dec.stateRoot ≠ none
    ∧ dec.receiptsRoot ≠ none ∧ dec.logsBloom ≠ none ∧ dec.random ≠ none
    ∧ dec.number ≠ none ∧ dec.gasLimit ≠ none ∧ dec.gasUsed ≠ none
    ∧ dec.timestamp ≠ none ∧ dec.extraData ≠ none ∧ dec.baseFeePerGas ≠ none
    ∧ dec.blockHash ≠ none ∧ dec.transactions ≠ none

/-- Claim C10: `UnmarshalJSON` fails, with a missing-required-field error,
exactly when at least one of the fourteen required JSON fields is absent or
null; `withdrawals`, `blobGasUsed` and `excessBlobGas` are optional and, when
absent, the receiver's corresponding fields are left unchanged rather than
zeroed. -/
theorem unmarshalJSON_spec (p : ExecutionPayload) (dec : ExecutionPayloadJSON) :
    ((unmarshalJSON p dec).isOk = true ↔ jsonRequiredPresent dec)
      ∧ (∀ e, unmarshalJSON p dec = .error e → e ∈ missingFieldMsgs)
      ∧ (∀ q, unmarshalJSON p dec = .ok q →
          q.version = p.version
            ∧ dec.parentHash = some q.parentHash
            ∧ dec.feeRecipient = some q.feeRecipient
            ∧ dec.stateRoot = some q.stateRoot
            ∧ dec.receiptsRoot = some q.receiptsRoot
            ∧ dec.logsBloom = some q.logsBloom
            ∧ dec.random = some q.random
            ∧ dec.number = some q.number
            ∧ dec.gasLimit = some q.gasLimit
            ∧ dec.gasUsed = some q.gasUsed
            ∧ dec.timestamp = some q.timestamp
            ∧ dec.extraData = some q.extraData
            ∧ q.baseFeePerGas = dec.baseFeePerGas
            ∧ dec.blockHash = some q.blockHash
            ∧ dec.transactions = some q.transactions
            ∧ q.withdrawals = (match dec.withdrawals with
                               | some w => some w
                               | none => p.withdrawals)
            ∧ q.blobGasUsed = dec.blobGasUsed.getD p.blobGasUsed
            ∧ q.excessBlobGas = dec.excessBlobGas.getD p.excessBlobGas) := by
  refine ⟨?_, ?_, ?_⟩
  · unfold unmarshalJSON
    repeat' split
    all_goals simp_all [jsonRequiredPresent, isOk_ok, isOk_error]
  · intro e
    unfold unmarshalJSON
    repeat' split
    all_goals intro he
    all_goals first
      | (cases he; simp [missingFieldMsgs])
      | cases he
  · intro q
    unfold unmarshalJSON
    repeat' split
    all_goals intro hq
    all_goals cases hq
    all_goals simp_all

/-- A parsed JSON struct with all fourteen required fields present and the
three optional fields absent. -/
def sampleJSON : ExecutionPayloadJSON :=
  { parentHash := some (BVec.zero 32)
    feeRecipient := some (BVec.zero 20)
    stateRoot := some (BVec.zero 32)
    receiptsRoot := some (BVec.zero 32)
    logsBloom := some (BVec.zero 256)
    random := some (BVec.zero 32)
    number := some 7
    gasLimit := some 8
    gasUsed := some 9
    timestamp := some 10
    extraData := some [1, 2]
    baseFeePerGas := some 5
    blockHash := some (BVec.zero 32)
    transactions := some [[1]]
    withdrawals := none
    blobGasUsed := none
    excessBlobGas := none }

/-- Witness for C10 at concrete inputs: a fully populated parse succeeds, and
dropping `parentHash` fails with its missing-required-field message. -/
theorem unmarshalJSON_witness :
    (unmarshalJSON (newEmptyExecutionPayloadWithVersion .deneb) sampleJSON).isOk = true
      ∧ "missing required field parentHash for ExecutionPayload" ∈ missingFieldMsgs :=
  ⟨(unmarshalJSON_spec (newEmptyExecutionPayloadWithVersion .deneb) sampleJSON).1.mpr
      (by constructor <;> simp [sampleJSON]),
   (unmarshalJSON_spec (newEmptyExecutionPayloadWithVersion .deneb)
      { sampleJSON with parentHash := none }).2.1
      "missing required field parentHash for ExecutionPayload" rfl⟩

/-! ## Claim C1: chunk toolkit -/

theorem fill32_dvd (s : List Nat) : 32 ∣ (fill32 s).length := by
  simp only [fill32, List.length_append, List.length_replicate, padLen]
  omega

theorem fill32_of_dvd (s : List Nat) (h : 32 ∣ s.length) : fill32 s = s := by
  have hp : padLen s.length = 0 := by
    simp only [padLen]
    omega
  simp [fill32, hp]

theorem fill32_append (s t : List Nat) (h : 32 ∣ s.length) :
    fill32 (s ++ t) = s ++ fill32 t := by
  have hp : padLen (s.length + t.length) = padLen t.length := by
    simp only [padLen]
    omega
  simp [fill32, hp]

theorem fill32_idem (s : List Nat) : fill32 (fill32 s) = fill32 s :=
  fill32_of_dvd _ (fill32_dvd s)

theorem chunk32_length (b : List Nat) (h0 : b ≠ []) (h : b.length ≤ 32) :
    (chunk32 b).length = 32 := by
  have hb : 0 < b.length := List.length_pos.mpr h0
  simp only [chunk32, fill32, List.length_append, List.length_replicate, padLen]
  omega

theorem u64chunk_length (n : Nat) : (u64chunk n).length = 32 := by
  simp only [u64chunk, fill32, List.length_append, natToBytesLE_length, u64le,
    List.length_replicate, padLen]

theorem flat32_dvd (cs : List (List Nat)) (h : ∀ c ∈ cs, c.length = 32) :
    32 ∣ cs.flatten.length := by
  induction cs with
  | nil => simp
  | cons c rest ih =>
    simp only [List.flatten_cons, List.length_append, List.forall_mem_cons] at *
    rcases ih h.2 with ⟨k, hk⟩
    exact ⟨k + 1, by omega⟩

theorem toChunksF_congr (f1 f2 : Nat) (s : List Nat) (h1 : s.length ≤ f1)
    (h2 : s.length ≤ f2) : toChunksF f1 s = toChunksF f2 s := by
  induction f1 generalizing s f2 with
  | zero =>
    have : s = [] := List.eq_nil_of_length_eq_zero (by omega)
    subst this
    cases f2 <;> rfl
  | succ f ih =>
    cases s with
    | nil => cases f2 <;> rfl
    | cons a as =>
      cases f2 with
      | zero => simp at h2
      | succ g =>
        simp only [toChunksF]
        refine congrArg _ (ih g _ ?_ ?_)
        all_goals simp only [List.length_drop, List.length_cons] at *
        all_goals omega

theorem toChunks_cons32 (c t : List Nat) (h : c.length = 32) :
    toChunks (c ++ t) = c :: toChunks t := by
  have hne : c ++ t ≠ [] := by
    intro hh
    rcases List.append_eq_nil.mp hh with ⟨h1, _⟩
    subst h1
    simp at h
  unfold toChunks
  have hlen : (c ++ t).length = 31 + t.length + 1 := by
    simp [h]
    omega
  rw [hlen]
  cases hc : c ++ t with
  | nil => exact absurd hc hne
  | cons a as =>
    show (a :: as).take 32 :: toChunksF (31 + t.length) ((a :: as).drop 32) = _
    rw [← hc, List.take_left' h, List.drop_left' h]
    exact congrArg _ (toChunksF_congr _ _ _ (by omega) (by omega))

theorem toChunks_flat32 (cs : List (List Nat)) (h : ∀ c ∈ cs, c.length = 32) :
    toChunks cs.flatten = cs := by
  induction cs with
  | nil => rfl
  | cons c rest ih =>
    rw [List.forall_mem_cons] at h
    rw [List.flatten_cons, toChunks_cons32 _ _ h.1, ih h.2]

theorem toChunksF_length (f : Nat) (s : List Nat) (h : s.length ≤ f) :
    (toChunksF f s).length = (s.length + 31) / 32 := by
  induction f generalizing s with
  | zero =>
    have : s = [] := List.eq_nil_of_length_eq_zero (by omega)
    subst this
    rfl
  | succ f ih =>
    cases s with
    | nil => rfl
    | cons a as =>
      show ((a :: as).take 32 :: toChunksF f ((a :: as).drop 32)).length = _
      rw [List.length_cons, ih _ (by simp only [List.length_drop]; omega)]
      simp only [List.length_drop, List.length_cons]
      omega

theorem toChunks_length (s : List Nat) : (toChunks s).length = (s.length + 31) / 32 :=
  toChunksF_length s.length s (le_refl _)

theorem merkleize_nil (H : List Nat → List Nat → List Nat) (d : Nat) :
    merkleize H d [] = zeroHash H d := by
  cases d <;> rfl

theorem zeroHash_length (H : List Nat → List Nat → List Nat)
    (hH : ∀ a b, (H a b).length = 32) (d : Nat) : (zeroHash H d).length = 32 := by
  cases d with
  | zero => simp [zeroHash, zeroChunk]
  | succ d => simp [zeroHash, hH]

theorem merkleize_length (H : List Nat → List Nat → List Nat)
    (hH : ∀ a b, (H a b).length = 32) (d : Nat) (cs : List (List Nat))
    (hcs : ∀ c ∈ cs, c.length = 32) : (merkleize H d cs).length = 32 := by
  cases d with
  | zero =>
    cases cs with
    | nil => simp [merkleize, zeroChunk]
    | cons c rest => exact hcs c (List.mem_cons_self c rest)
  | succ d =>
    cases cs with
    | nil => exact zeroHash_length H hH (d + 1)
    | cons c rest => simp [merkleize, hH]

theorem mixinLength_length (H : List Nat → List Nat → List Nat)
    (hH : ∀ a b, (H a b).length = 32) (root : List Nat) (n : Nat) :
    (mixinLength H root n).length = 32 := hH _ _

/-! ## Claim C1: walker step lemmas -/

theorem hwPutBytes_small (H : List Nat → List Nat → List Nat) (b s : List Nat)
    (hb : b.length ≤ 32) (hs : 32 ∣ s.length) :
    hwPutBytes H b s = s ++ chunk32 b := by
  rw [hwPutBytes, if_pos hb, chunk32, fill32_append _ _ hs]

theorem hwPutUint64_eq (n : Nat) (s : List Nat) (hs : 32 ∣ s.length) :
    hwPutUint64 n s = s ++ u64chunk n := by
  rw [hwPutUint64, u64chunk, fill32_append _ _ hs]

theorem hwMerkleize_eq (H : List Nat → List Nat → List Nat) (s t : List Nat) :
    hwMerkleize H s.length (s ++ t)
      = s ++ merkleize H (ceillog2 (toChunks t).length) (toChunks t) := by
  rw [hwMerkleize, List.drop_left, List.take_left]

theorem hwMWM_eq (H : List Nat → List Nat → List Nat) (s t : List Nat)
    (num limit : Nat) (hs : 32 ∣ s.length) :
    hwMerkleizeWithMixin H s.length num limit (s ++ t)
      = s ++ mixinLength H (merkleize H (ceillog2 limit) (chunksOfBytes t)) num := by
  rw [hwMerkleizeWithMixin, fill32_append _ _ hs]
  show (s ++ fill32 t).take s.length ++ _ = _
  rw [List.drop_left, List.take_left]
  rfl

theorem hwPutBytes_bloom (H : List Nat → List Nat → List Nat) (b s : List Nat)
    (hb : b.length = 256) (hs : 32 ∣ s.length) :
    hwPutBytes H b s = s ++ bloomRoot H b := by
  rw [hwPutBytes, if_neg (by omega)]
  have hst : 32 ∣ (s ++ b).length := by
    simp only [List.length_append, hb]
    omega
  rw [fill32_of_dvd _ hst, hwMerkleize_eq]
  have hcount : (toChunks b).length = 8 := by
    rw [toChunks_length, hb]
  rw [hcount]
  have hchunks : chunksOfBytes b = toChunks b := by
    rw [chunksOfBytes, fill32_of_dvd _ (by rw [hb]; omega)]
  rw [bloomRoot, hchunks]
  rfl

theorem toChunksF_all32 (f : Nat) (s : List Nat) (hf : s.length ≤ f)
    (h : 32 ∣ s.length) : ∀ c ∈ toChunksF f s, c.length = 32 := by
  induction f generalizing s with
  | zero =>
    have : s = [] := List.eq_nil_of_length_eq_zero (by omega)
    subst this
    intro c hc
    simp [toChunksF] at hc
  | succ f ih =>
    cases s with
    | nil =>
      intro c hc
      simp [toChunksF] at hc
    | cons a as =>
      have hge : 32 ≤ (a :: as).length := by
        have := List.length_cons a as
        omega
      intro c hc
      rcases List.mem_cons.mp hc with hc | hc
      · subst hc
        simp only [List.length_take]
        omega
      · refine ih _ ?_ ?_ c hc
        · simp only [List.length_drop]
          simp only [List.length_cons] at hf ⊢
          omega
        · simp only [List.length_drop]
          omega

theorem toChunks_all32 (s : List Nat) (h : 32 ∣ s.length) :
    ∀ c ∈ toChunks s, c.length = 32 :=
  toChunksF_all32 s.length s (le_refl _) h

theorem chunksOfBytes_all32 (b : List Nat) : ∀ c ∈ chunksOfBytes b, c.length = 32 :=
  toChunks_all32 (fill32 b) (fill32_dvd b)

theorem toChunks_single (c : List Nat) (h : c.length = 32) : toChunks c = [c] := by
  have := toChunks_cons32 c [] h
  simpa using this

/-! ## Claim C1: field root lengths -/

theorem bloomRoot_length (H : List Nat → List Nat → List Nat)
    (hH : ∀ a b, (H a b).length = 32) (b : List Nat) : (bloomRoot H b).length = 32 :=
  merkleize_length H hH 3 _ (chunksOfBytes_all32 b)

theorem extraDataRoot_length (H : List Nat → List Nat → List Nat)
    (hH : ∀ a b, (H a b).length = 32) (b : List Nat) :
    (extraDataRoot H b).length = 32 := hH _ _

theorem txRoot_length (H : List Nat → List Nat → List Nat)
    (hH : ∀ a b, (H a b).length = 32) (tx : List Nat) : (txRoot H tx).length = 32 := hH _ _

theorem txsRoot_length (H : List Nat → List Nat → List Nat)
    (hH : ∀ a b, (H a b).length = 32) (txs : List (List Nat)) :
    (txsRoot H txs).length = 32 := hH _ _

theorem withdrawalRoot_length (H : List Nat → List Nat → List Nat)
    (hH : ∀ a b, (H a b).length = 32) (w : Withdrawal) :
    (withdrawalRoot H w).length = 32 := by
  refine merkleize_length H hH 2 _ ?_
  intro c hc
  have haddr : (chunk32 w.address.val).length = 32 := by
    refine chunk32_length _ ?_ ?_
    · have := w.address.2
      intro hnil
      rw [hnil] at this
      simp at this
    · rw [w.address.2]
      omega
  simp only [List.mem_cons, List.mem_singleton] at hc
  rcases hc with rfl | rfl | rfl | rfl | hc
  · exact u64chunk_length _
  · exact u64chunk_length _
  · exact haddr
  · exact u64chunk_length _
  · simp at hc

theorem withdrawalsRoot_length (H : List Nat → List Nat → List Nat)
    (hH : ∀ a b, (H a b).length = 32) (ws : List Withdrawal) :
    (withdrawalsRoot H ws).length = 32 := hH _ _

theorem bvec_chunk32_length (n : Nat) (hn : 0 < n) (hn32 : n ≤ 32) (b : BVec n) :
    (chunk32 b.val).length = 32 := by
  refine chunk32_length _ ?_ ?_
  · intro hnil
    have := b.2
    rw [hnil] at this
    simp at this
    omega
  · rw [b.2]
    exact hn32

theorem u256chunk_length (n : Nat) : (chunk32 (u256le n)).length = 32 := by
  refine chunk32_length _ ?_ ?_
  · intro hnil
    have := u256le_length n
    rw [hnil] at this
    simp at this
  · rw [u256le_length]

theorem fieldRoots_all32 (H : List Nat → List Nat → List Nat)
    (hH : ∀ a b, (H a b).length = 32) (p : ExecutionPayload) :
    ∀ c ∈ fieldRoots H p, c.length = 32 := by
  intro c hc
  simp only [fieldRoots, List.mem_cons, List.mem_singleton] at hc
  rcases hc with rfl | rfl | rfl | rfl | rfl | rfl | rfl | rfl | rfl | rfl | rfl | rfl
    | rfl | rfl | rfl | rfl | rfl | hc
  · exact bvec_chunk32_length 32 (by omega) (by omega) p.parentHash
  · exact bvec_chunk32_length 20 (by omega) (by omega) p.feeRecipient
  · exact bvec_chunk32_length 32 (by omega) (by omega) p.stateRoot
  · exact bvec_chunk32_length 32 (by omega) (by omega) p.receiptsRoot
  · exact bloomRoot_length H hH _
  · exact bvec_chunk32_length 32 (by omega) (by omega) p.random
  · exact u64chunk_length _
  · exact u64chunk_length _
  · exact u64chunk_length _
  · exact u64chunk_length _
  · exact extraDataRoot_length H hH _
  · exact u256chunk_length _
  · exact bvec_chunk32_length 32 (by omega) (by omega) p.blockHash
  · exact txsRoot_length H hH _
  · exact withdrawalsRoot_length H hH _
  · exact u64chunk_length _
  · exact u64chunk_length _
  · simp at hc

theorem dvd_append32 {s c : List Nat} (hs : 32 ∣ s.length) (hc : c.length = 32) :
    32 ∣ (s ++ c).length := by
  simp only [List.length_append, hc]
  omega

theorem withdrawalHTRW_eq (H : List Nat → List Nat → List Nat)
    (hH : ∀ a b, (H a b).length = 32) (w : Withdrawal) (s : List Nat)
    (hs : 32 ∣ s.length) : withdrawalHTRW H w s = s ++ withdrawalRoot H w := by
  have haddrne : w.address.val ≠ [] := by
    intro hnil
    have := w.address.2
    rw [hnil] at this
    simp at this
  have haddrlen : (chunk32 w.address.val).length = 32 :=
    chunk32_length _ haddrne (by rw [w.address.2]; omega)
  unfold withdrawalHTRW
  dsimp only
  rw [hwPutUint64_eq _ _ hs,
    hwPutUint64_eq _ _ (dvd_append32 hs (u64chunk_length _)),
    hwPutBytes_small H _ _ (by rw [w.address.2]; omega)
      (dvd_append32 (dvd_append32 hs (u64chunk_length _)) (u64chunk_length _)),
    hwPutUint64_eq _ _
      (dvd_append32 (dvd_append32 (dvd_append32 hs (u64chunk_length _))
        (u64chunk_length _)) haddrlen)]
  simp only [List.append_assoc]
  rw [hwMerkleize_eq]
  rw [toChunks_cons32 _ _ (u64chunk_length _), toChunks_cons32 _ _ (u64chunk_length _),
    toChunks_cons32 _ _ haddrlen, toChunks_single _ (u64chunk_length _)]
  have h4 : ([u64chunk w.index, u64chunk w.validatorIndex, chunk32 w.address.val,
      u64chunk w.amount] : List (List Nat)).length = 4 := rfl
  rw [h4, show ceillog2 4 = 2 from rfl]
  rfl

theorem wfold_eq (H : List Nat → List Nat → List Nat)
    (hH : ∀ a b, (H a b).length = 32) (ws : List Withdrawal) (s : List Nat)
    (hs : 32 ∣ s.length) :
    ws.foldl (fun s w => withdrawalHTRW H w s) s
      = s ++ (ws.map (withdrawalRoot H)).flatten := by
  induction ws generalizing s with
  | nil => simp
  | cons w rest ih =>
    rw [List.foldl_cons, withdrawalHTRW_eq H hH w s hs,
      ih _ (dvd_append32 hs (withdrawalRoot_length H hH w))]
    simp [List.append_assoc]

theorem txLoop_ok_eq (H : List Nat → List Nat → List Nat)
    (hH : ∀ a b, (H a b).length = 32) (txs : List (List Nat)) (s : List Nat)
    (hs : 32 ∣ s.length) (hall : ∀ tx ∈ txs, tx.length ≤ maxBytesPerTx) :
    txLoop H txs s = .ok (s ++ (txs.map (txRoot H)).flatten) := by
  induction txs generalizing s with
  | nil => simp [txLoop]
  | cons tx rest ih =>
    rw [List.forall_mem_cons] at hall
    rw [txLoop, if_neg (by omega)]
    dsimp only
    rw [fill32_append _ _ hs]
    have hstep : hwMerkleizeWithMixin H s.length tx.length 33554432 (s ++ fill32 tx)
        = s ++ txRoot H tx := by
      rw [hwMWM_eq H s (fill32 tx) tx.length 33554432 hs]
      rw [show chunksOfBytes (fill32 tx) = chunksOfBytes tx from by
        rw [chunksOfBytes, chunksOfBytes, fill32_idem]]
      rfl
    rw [hstep, ih _ (dvd_append32 hs (txRoot_length H hH tx)) hall.2]
    simp [List.append_assoc]

theorem htrwTail_ok_eq (H : List Nat → List Nat → List Nat)
    (hH : ∀ a b, (H a b).length = 32) (p : ExecutionPayload) (s0 : List Nat)
    (cs : List (List Nat)) (hcs : ∀ c ∈ cs, c.length = 32) (hs0 : 32 ∣ s0.length)
    (hw : (p.withdrawals.getD []).length ≤ maxWithdrawalsPerPayload) :
    htrwTail H p s0.length (s0 ++ cs.flatten)
      = .ok (s0 ++ merkleize H (ceillog2 (cs.length + 3))
          (cs ++ [withdrawalsRoot H (p.withdrawals.getD []),
                  u64chunk p.blobGasUsed, u64chunk p.excessBlobGas])) := by
  have hflat : 32 ∣ cs.flatten.length := flat32_dvd cs hcs
  have hsl : 32 ∣ (s0 ++ cs.flatten).length := by
    simp only [List.length_append]
    omega
  have hroots : ∀ c ∈ (p.withdrawals.getD []).map (withdrawalRoot H), c.length = 32 := by
    intro c hc
    rcases List.mem_map.mp hc with ⟨w, _, rfl⟩
    exact withdrawalRoot_length H hH w
  have hwlen : (withdrawalsRoot H (p.withdrawals.getD [])).length = 32 :=
    withdrawalsRoot_length H hH _
  unfold htrwTail
  rw [if_neg (by omega)]
  dsimp only
  rw [wfold_eq H hH _ _ hsl]
  rw [hwMWM_eq H (s0 ++ cs.flatten) (((p.withdrawals.getD []).map (withdrawalRoot H)).flatten)
    (p.withdrawals.getD []).length 16 hsl]
  rw [show chunksOfBytes (((p.withdrawals.getD []).map (withdrawalRoot H)).flatten)
      = (p.withdrawals.getD []).map (withdrawalRoot H) from by
    rw [chunksOfBytes, fill32_of_dvd _ (flat32_dvd _ hroots), toChunks_flat32 _ hroots]]
  rw [show ceillog2 16 = 4 from rfl]
  rw [show mixinLength H (merkleize H 4 ((p.withdrawals.getD []).map (withdrawalRoot H)))
      (p.withdrawals.getD []).length = withdrawalsRoot H (p.withdrawals.getD []) from rfl]
  rw [hwPutUint64_eq p.blobGasUsed
    (s0 ++ cs.flatten ++ withdrawalsRoot H (p.withdrawals.getD []))
    (by simp only [List.length_append, hwlen]; omega)]
  rw [hwPutUint64_eq p.excessBlobGas
    (s0 ++ cs.flatten ++ withdrawalsRoot H (p.withdrawals.getD [])
      ++ u64chunk p.blobGasUsed)
    (by simp only [List.length_append, hwlen, u64chunk_length]; omega)]
  have hshape : s0 ++ cs.flatten ++ withdrawalsRoot H (p.withdrawals.getD [])
        ++ u64chunk p.blobGasUsed ++ u64chunk p.excessBlobGas
      = s0 ++ (cs ++ [withdrawalsRoot H (p.withdrawals.getD []),
          u64chunk p.blobGasUsed, u64chunk p.excessBlobGas]).flatten := by
    simp [List.flatten_append, List.append_assoc]
  rw [hshape, hwMerkleize_eq]
  have hall : ∀ c ∈ cs ++ [withdrawalsRoot H (p.withdrawals.getD []),
      u64chunk p.blobGasUsed, u64chunk p.excessBlobGas], c.length = 32 := by
    intro c hc
    rcases List.mem_append.mp hc with hc | hc
    · exact hcs c hc
    · simp only [List.mem_cons, List.mem_singleton] at hc
      rcases hc with rfl | rfl | rfl | hc
      · exact hwlen
      · exact u64chunk_length _
      · exact u64chunk_length _
      · simp at hc
  rw [toChunks_flat32 _ hall]
  rw [show (cs ++ [withdrawalsRoot H (p.withdrawals.getD []),
      u64chunk p.blobGasUsed, u64chunk p.excessBlobGas]).length = cs.length + 3 from by
    simp]

theorem htrwTxs_ok_eq (H : List Nat → List Nat → List Nat)
    (hH : ∀ a b, (H a b).length = 32) (p : ExecutionPayload) (s0 : List Nat)
    (cs : List (List Nat)) (hcs : ∀ c ∈ cs, c.length = 32) (hs0 : 32 ∣ s0.length)
    (h2 : p.transactions.length ≤ maxTxsPerPayload)
    (h3 : ∀ tx ∈ p.transactions, tx.length ≤ maxBytesPerTx)
    (h4 : (p.withdrawals.getD []).length ≤ maxWithdrawalsPerPayload) :
    htrwTxs H p s0.length (s0 ++ cs.flatten)
      = .ok (s0 ++ merkleize H (ceillog2 (cs.length + 4))
          (cs ++ [txsRoot H p.transactions, withdrawalsRoot H (p.withdrawals.getD []),
                  u64chunk p.blobGasUsed, u64chunk p.excessBlobGas])) := by
  have hflat : 32 ∣ cs.flatten.length := flat32_dvd cs hcs
  have hsl : 32 ∣ (s0 ++ cs.flatten).length := by
    simp only [List.length_append]
    omega
  have hroots : ∀ c ∈ p.transactions.map (txRoot H), c.length = 32 := by
    intro c hc
    rcases List.mem_map.mp hc with ⟨tx, _, rfl⟩
    exact txRoot_length H hH tx
  have htlen : (txsRoot H p.transactions).length = 32 := txsRoot_length H hH _
  unfold htrwTxs
  rw [if_neg (by omega)]
  rw [txLoop_ok_eq H hH _ _ hsl h3]
  show htrwTail H p s0.length
      (hwMerkleizeWithMixin H (s0 ++ cs.flatten).length p.transactions.length 1048576
        (s0 ++ cs.flatten ++ (List.map (txRoot H) p.transactions).flatten)) = _
  rw [hwMWM_eq H (s0 ++ cs.flatten) ((p.transactions.map (txRoot H)).flatten)
    p.transactions.length 1048576 hsl]
  rw [show chunksOfBytes ((p.transactions.map (txRoot H)).flatten)
      = p.transactions.map (txRoot H) from by
    rw [chunksOfBytes, fill32_of_dvd _ (flat32_dvd _ hroots), toChunks_flat32 _ hroots]]
  rw [show ceillog2 1048576 = 20 from rfl]
  rw [show mixinLength H (merkleize H 20 (p.transactions.map (txRoot H)))
      p.transactions.length = txsRoot H p.transactions from rfl]
  have hshape : s0 ++ cs.flatten ++ txsRoot H p.transactions
      = s0 ++ (cs ++ [txsRoot H p.transactions]).flatten := by
    simp [List.flatten_append, List.append_assoc]
  rw [hshape]
  rw [htrwTail_ok_eq H hH p s0 (cs ++ [txsRoot H p.transactions])
    (by
      intro c hc
      rcases List.mem_append.mp hc with hc | hc
      · exact hcs c hc
      · simp only [List.mem_singleton] at hc
        subst hc
        exact htlen)
    hs0 h4]
  rw [show (cs ++ [txsRoot H p.transactions]).length + 3 = cs.length + 4 from by simp]
  rw [List.append_assoc]
  rfl

/-! ## Claim C1: main agreement -/

theorem hashTreeRootWith_ok_eq (H : List Nat → List Nat → List Nat)
    (hH : ∀ a b, (H a b).length = 32) (p : ExecutionPayload) (s0 : List Nat)
    (hs0 : 32 ∣ s0.length)
    (h1 : p.extraData.length ≤ maxExtraDataSize)
    (h2 : p.transactions.length ≤ maxTxsPerPayload)
    (h3 : ∀ tx ∈ p.transactions, tx.length ≤ maxBytesPerTx)
    (h4 : (p.withdrawals.getD []).length ≤ maxWithdrawalsPerPayload) :
    hashTreeRootWith H p s0 = .ok (s0 ++ hashTreeRoot H p) := by
  have l1 : (chunk32 p.parentHash.val).length = 32 := bvec_chunk32_length 32 (by omega) (by omega) p.parentHash
  have l2 : (chunk32 p.feeRecipient.val).length = 32 := bvec_chunk32_length 20 (by omega) (by omega) p.feeRecipient
  have l3 : (chunk32 p.stateRoot.val).length = 32 := bvec_chunk32_length 32 (by omega) (by omega) p.stateRoot
  have l4 : (chunk32 p.receiptsRoot.val).length = 32 := bvec_chunk32_length 32 (by omega) (by omega) p.receiptsRoot
  have l5 : (bloomRoot H p.logsBloom.val).length = 32 := bloomRoot_length H hH p.logsBloom.val
  have l6 : (chunk32 p.random.val).length = 32 := bvec_chunk32_length 32 (by omega) (by omega) p.random
  have l7 : (u64chunk p.number).length = 32 := u64chunk_length p.number
  have l8 : (u64chunk p.gasLimit).length = 32 := u64chunk_length p.gasLimit
  have l9 : (u64chunk p.gasUsed).length = 32 := u64chunk_length p.gasUsed
  have l10 : (u64chunk p.timestamp).length = 32 := u64chunk_length p.timestamp
  have l11 : (extraDataRoot H p.extraData).length = 32 := extraDataRoot_length H hH p.extraData
  have l12 : (chunk32 (u256le (p.baseFeePerGas.getD 0))).length = 32 := u256chunk_length (p.baseFeePerGas.getD 0)
  have l13 : (chunk32 p.blockHash.val).length = 32 := bvec_chunk32_length 32 (by omega) (by omega) p.blockHash
  have a0 : 32 ∣ s0.length := hs0
  have a1 : 32 ∣ (s0 ++ (chunk32 p.parentHash.val)).length := dvd_append32 a0 l1
  have a2 : 32 ∣ (s0 ++ (chunk32 p.parentHash.val) ++ (chunk32 p.feeRecipient.val)).length := dvd_append32 a1 l2
  have a3 : 32 ∣ (s0 ++ (chunk32 p.parentHash.val) ++ (chunk32 p.feeRecipient.val) ++ (chunk32 p.stateRoot.val)).length := dvd_append32 a2 l3
  have a4 : 32 ∣ (s0 ++ (chunk32 p.parentHash.val) ++ (chunk32 p.feeRecipient.val) ++ (chunk32 p.stateRoot.val) ++ (chunk32 p.receiptsRoot.val)).length := dvd_append32 a3 l4
  have a5 : 32 ∣ (s0 ++ (chunk32 p.parentHash.val) ++ (chunk32 p.feeRecipient.val) ++ (chunk32 p.stateRoot.val) ++ (chunk32 p.receiptsRoot.val) ++ (bloomRoot H p.logsBloom.val)).length := dvd_append32 a4 l5
  have a6 : 32 ∣ (s0 ++ (chunk32 p.parentHash.val) ++ (chunk32 p.feeRecipient.val) ++ (chunk32 p.stateRoot.val) ++ (chunk32 p.receiptsRoot.val) ++ (bloomRoot H p.logsBloom.val) ++ (chunk32 p.random.val)).length := dvd_append32 a5 l6
  have a7 : 32 ∣ (s0 ++ (chunk32 p.parentHash.val) ++ (chunk32 p.feeRecipient.val) ++ (chunk32 p.stateRoot.val) ++ (chunk32 p.receiptsRoot.val) ++ (bloomRoot H p.logsBloom.val) ++ (chunk32 p.random.val) ++ (u64chunk p.number)).length := dvd_append32 a6 l7
  have a8 : 32 ∣ (s0 ++ (chunk32 p.parentHash.val) ++ (chunk32 p.feeRecipient.val) ++ (chunk32 p.stateRoot.val) ++ (chunk32 p.receiptsRoot.val) ++ (bloomRoot H p.logsBloom.val) ++ (chunk32 p.random.val) ++ (u64chunk p.number) ++ (u64chunk p.gasLimit)).length := dvd_append32 a7 l8
  have a9 : 32 ∣ (s0 ++ (chunk32 p.parentHash.val) ++ (chunk32 p.feeRecipient.val) ++ (chunk32 p.stateRoot.val) ++ (chunk32 p.receiptsRoot.val) ++ (bloomRoot H p.logsBloom.val) ++ (chunk32 p.random.val) ++ (u64chunk p.number) ++ (u64chunk p.gasLimit) ++ (u64chunk p.gasUsed)).length := dvd_append32 a8 l9
  have a10 : 32 ∣ (s0 ++ (chunk32 p.parentHash.val) ++ (chunk32 p.feeRecipient.val) ++ (chunk32 p.stateRoot.val) ++ (chunk32 p.receiptsRoot.val) ++ (bloomRoot H p.logsBloom.val) ++ (chunk32 p.random.val) ++ (u64chunk p.number) ++ (u64chunk p.gasLimit) ++ (u64chunk p.gasUsed) ++ (u64chunk p.timestamp)).length := dvd_append32 a9 l10
  have a11 : 32 ∣ (s0 ++ (chunk32 p.parentHash.val) ++ (chunk32 p.feeRecipient.val) ++ (chunk32 p.stateRoot.val) ++ (chunk32 p.receiptsRoot.val) ++ (bloomRoot H p.logsBloom.val) ++ (chunk32 p.random.val) ++ (u64chunk p.number) ++ (u64chunk p.gasLimit) ++ (u64chunk p.gasUsed) ++ (u64chunk p.timestamp) ++ (extraDataRoot H p.extraData)).length := dvd_append32 a10 l11
  have a12 : 32 ∣ (s0 ++ (chunk32 p.parentHash.val) ++ (chunk32 p.feeRecipient.val) ++ (chunk32 p.stateRoot.val) ++ (chunk32 p.receiptsRoot.val) ++ (bloomRoot H p.logsBloom.val) ++ (chunk32 p.random.val) ++ (u64chunk p.number) ++ (u64chunk p.gasLimit) ++ (u64chunk p.gasUsed) ++ (u64chunk p.timestamp) ++ (extraDataRoot H p.extraData) ++ (chunk32 (u256le (p.baseFeePerGas.getD 0)))).length := dvd_append32 a11 l12
  have a13 : 32 ∣ (s0 ++ (chunk32 p.parentHash.val) ++ (chunk32 p.feeRecipient.val) ++ (chunk32 p.stateRoot.val) ++ (chunk32 p.receiptsRoot.val) ++ (bloomRoot H p.logsBloom.val) ++ (chunk32 p.random.val) ++ (u64chunk p.number) ++ (u64chunk p.gasLimit) ++ (u64chunk p.gasUsed) ++ (u64chunk p.timestamp) ++ (extraDataRoot H p.extraData) ++ (chunk32 (u256le (p.baseFeePerGas.getD 0))) ++ (chunk32 p.blockHash.val)).length := dvd_append32 a12 l13
  unfold hashTreeRootWith
  dsimp only
  rw [if_neg (by omega)]
  rw [hwPutBytes_small H p.parentHash.val s0 (by simp [p.parentHash.2]) a0]
  rw [hwPutBytes_small H p.feeRecipient.val (s0 ++ (chunk32 p.parentHash.val)) (by simp [p.feeRecipient.2]) a1]
  rw [hwPutBytes_small H p.stateRoot.val (s0 ++ (chunk32 p.parentHash.val) ++ (chunk32 p.feeRecipient.val)) (by simp [p.stateRoot.2]) a2]
  rw [hwPutBytes_small H p.receiptsRoot.val (s0 ++ (chunk32 p.parentHash.val) ++ (chunk32 p.feeRecipient.val) ++ (chunk32 p.stateRoot.val)) (by simp [p.receiptsRoot.2]) a3]
  rw [hwPutBytes_bloom H p.logsBloom.val (s0 ++ (chunk32 p.parentHash.val) ++ (chunk32 p.feeRecipient.val) ++ (chunk32 p.stateRoot.val) ++ (chunk32 p.receiptsRoot.val)) p.logsBloom.2 a4]
  rw [hwPutBytes_small H p.random.val (s0 ++ (chunk32 p.parentHash.val) ++ (chunk32 p.feeRecipient.val) ++ (chunk32 p.stateRoot.val) ++ (chunk32 p.receiptsRoot.val) ++ (bloomRoot H p.logsBloom.val)) (by simp [p.random.2]) a5]
  rw [hwPutUint64_eq p.number (s0 ++ (chunk32 p.parentHash.val) ++ (chunk32 p.feeRecipient.val) ++ (chunk32 p.stateRoot.val) ++ (chunk32 p.receiptsRoot.val) ++ (bloomRoot H p.logsBloom.val) ++ (chunk32 p.random.val)) a6]
  rw [hwPutUint64_eq p.gasLimit (s0 ++ (chunk32 p.parentHash.val) ++ (chunk32 p.feeRecipient.val) ++ (chunk32 p.stateRoot.val) ++ (chunk32 p.receiptsRoot.val) ++ (bloomRoot H p.logsBloom.val) ++ (chunk32 p.random.val) ++ (u64chunk p.number)) a7]
  rw [hwPutUint64_eq p.gasUsed (s0 ++ (chunk32 p.parentHash.val) ++ (chunk32 p.feeRecipient.val) ++ (chunk32 p.stateRoot.val) ++ (chunk32 p.receiptsRoot.val) ++ (bloomRoot H p.logsBloom.val) ++ (chunk32 p.random.val) ++ (u64chunk p.number) ++ (u64chunk p.gasLimit)) a8]
  rw [hwPutUint64_eq p.timestamp (s0 ++ (chunk32 p.parentHash.val) ++ (chunk32 p.feeRecipient.val) ++ (chunk32 p.stateRoot.val) ++ (chunk32 p.receiptsRoot.val) ++ (bloomRoot H p.logsBloom.val) ++ (chunk32 p.random.val) ++ (u64chunk p.number) ++ (u64chunk p.gasLimit) ++ (u64chunk p.gasUsed)) a9]
  have e11 : hwMerkleizeWithMixin H (s0 ++ (chunk32 p.parentHash.val) ++ (chunk32 p.feeRecipient.val) ++ (chunk32 p.stateRoot.val) ++ (chunk32 p.receiptsRoot.val) ++ (bloomRoot H p.logsBloom.val) ++ (chunk32 p.random.val) ++ (u64chunk p.number) ++ (u64chunk p.gasLimit) ++ (u64chunk p.gasUsed) ++ (u64chunk p.timestamp)).length p.extraData.length 1
      (s0 ++ (chunk32 p.parentHash.val) ++ (chunk32 p.feeRecipient.val) ++ (chunk32 p.stateRoot.val) ++ (chunk32 p.receiptsRoot.val) ++ (bloomRoot H p.logsBloom.val) ++ (chunk32 p.random.val) ++ (u64chunk p.number) ++ (u64chunk p.gasLimit) ++ (u64chunk p.gasUsed) ++ (u64chunk p.timestamp) ++ p.extraData)
      = s0 ++ (chunk32 p.parentHash.val) ++ (chunk32 p.feeRecipient.val) ++ (chunk32 p.stateRoot.val) ++ (chunk32 p.receiptsRoot.val) ++ (bloomRoot H p.logsBloom.val) ++ (chunk32 p.random.val) ++ (u64chunk p.number) ++ (u64chunk p.gasLimit) ++ (u64chunk p.gasUsed) ++ (u64chunk p.timestamp) ++ extraDataRoot H p.extraData := by
    rw [hwMWM_eq H (s0 ++ (chunk32 p.parentHash.val) ++ (chunk32 p.feeRecipient.val) ++ (chunk32 p.stateRoot.val) ++ (chunk32 p.receiptsRoot.val) ++ (bloomRoot H p.logsBloom.val) ++ (chunk32 p.random.val) ++ (u64chunk p.number) ++ (u64chunk p.gasLimit) ++ (u64chunk p.gasUsed) ++ (u64chunk p.timestamp)) p.extraData p.extraData.length 1 a10]
    rfl
  rw [e11]
  rw [hwPutBytes_small H (u256le (p.baseFeePerGas.getD 0)) (s0 ++ (chunk32 p.parentHash.val) ++ (chunk32 p.feeRecipient.val) ++ (chunk32 p.stateRoot.val) ++ (chunk32 p.receiptsRoot.val) ++ (bloomRoot H p.logsBloom.val) ++ (chunk32 p.random.val) ++ (u64chunk p.number) ++ (u64chunk p.gasLimit) ++ (u64chunk p.gasUsed) ++ (u64chunk p.timestamp) ++ (extraDataRoot H p.extraData)) (by simp [u256le_length]) a11]
  rw [hwPutBytes_small H p.blockHash.val (s0 ++ (chunk32 p.parentHash.val) ++ (chunk32 p.feeRecipient.val) ++ (chunk32 p.stateRoot.val) ++ (chunk32 p.receiptsRoot.val) ++ (bloomRoot H p.logsBloom.val) ++ (chunk32 p.random.val) ++ (u64chunk p.number) ++ (u64chunk p.gasLimit) ++ (u64chunk p.gasUsed) ++ (u64chunk p.timestamp) ++ (extraDataRoot H p.extraData) ++ (chunk32 (u256le (p.baseFeePerGas.getD 0)))) (by simp [p.blockHash.2]) a12]
  have hshape : s0 ++ (chunk32 p.parentHash.val) ++ (chunk32 p.feeRecipient.val) ++ (chunk32 p.stateRoot.val) ++ (chunk32 p.receiptsRoot.val) ++ (bloomRoot H p.logsBloom.val) ++ (chunk32 p.random.val) ++ (u64chunk p.number) ++ (u64chunk p.gasLimit) ++ (u64chunk p.gasUsed) ++ (u64chunk p.timestamp) ++ (extraDataRoot H p.extraData) ++ (chunk32 (u256le (p.baseFeePerGas.getD 0))) ++ (chunk32 p.blockHash.val)
      = s0 ++ ([chunk32 p.parentHash.val, chunk32 p.feeRecipient.val, chunk32 p.stateRoot.val, chunk32 p.receiptsRoot.val, bloomRoot H p.logsBloom.val, chunk32 p.random.val, u64chunk p.number, u64chunk p.gasLimit, u64chunk p.gasUsed, u64chunk p.timestamp, extraDataRoot H p.extraData, chunk32 (u256le (p.baseFeePerGas.getD 0)), chunk32 p.blockHash.val] : List (List Nat)).flatten := by
    simp [List.flatten_cons, List.append_assoc]
  rw [hshape]
  have hcs13 : ∀ c ∈ ([chunk32 p.parentHash.val, chunk32 p.feeRecipient.val, chunk32 p.stateRoot.val, chunk32 p.receiptsRoot.val, bloomRoot H p.logsBloom.val, chunk32 p.random.val, u64chunk p.number, u64chunk p.gasLimit, u64chunk p.gasUsed, u64chunk p.timestamp, extraDataRoot H p.extraData, chunk32 (u256le (p.baseFeePerGas.getD 0)), chunk32 p.blockHash.val] : List (List Nat)), c.length = 32 := by
    intro c hc
    simp only [List.mem_cons, List.mem_singleton] at hc
    rcases hc with rfl | rfl | rfl | rfl | rfl | rfl | rfl | rfl | rfl | rfl | rfl | rfl | rfl | hc
    · exact l1
    · exact l2
    · exact l3
    · exact l4
    · exact l5
    · exact l6
    · exact l7
    · exact l8
    · exact l9
    · exact l10
    · exact l11
    · exact l12
    · exact l13
    · simp at hc
  rw [htrwTxs_ok_eq H hH p s0 [chunk32 p.parentHash.val, chunk32 p.feeRecipient.val, chunk32 p.stateRoot.val, chunk32 p.receiptsRoot.val, bloomRoot H p.logsBloom.val, chunk32 p.random.val, u64chunk p.number, u64chunk p.gasLimit, u64chunk p.gasUsed, u64chunk p.timestamp, extraDataRoot H p.extraData, chunk32 (u256le (p.baseFeePerGas.getD 0)), chunk32 p.blockHash.val] hcs13 hs0 h2 h3 h4]
  rw [show ([chunk32 p.parentHash.val, chunk32 p.feeRecipient.val, chunk32 p.stateRoot.val, chunk32 p.receiptsRoot.val, bloomRoot H p.logsBloom.val, chunk32 p.random.val, u64chunk p.number, u64chunk p.gasLimit, u64chunk p.gasUsed, u64chunk p.timestamp, extraDataRoot H p.extraData, chunk32 (u256le (p.baseFeePerGas.getD 0)), chunk32 p.blockHash.val] : List (List Nat)).length + 4 = 17 from by simp]
  rfl

/-- Claim C1: whenever the independently implemented streaming hasher
`HashTreeRootWith` succeeds on an `ExecutionPayload`, it produces exactly the
root computed by the generic schema-driven hasher `HashTreeRoot` (which is
total), for every pairwise compression function returning 32-byte chunks. -/
theorem dual_hasher_agreement (H : List Nat → List Nat → List Nat)
    (hH : ∀ a b, (H a b).length = 32) (p : ExecutionPayload) (r : List Nat)
    (hr : hashTreeRootWith H p [] = .ok r) : r = hashTreeRoot H p := by
  by_cases hcv : capacityViolated p
  · have hok := hashTreeRootWith_isOk H p []
    rw [hr] at hok
    rw [isOk_ok] at hok
    exact absurd hcv (hok.mp rfl)
  · unfold capacityViolated at hcv
    push_neg at hcv
    obtain ⟨hc1, hc2, hc3, hc4⟩ := hcv
    have heq := hashTreeRootWith_ok_eq H hH p [] (by simp) (by omega) (by omega)
      (fun tx hm => by have := hc3 tx hm; omega) (by omega)
    rw [hr] at heq
    have := Except.ok.inj heq
    simpa using this

/-- Witness for C1 at a concrete input: on the empty Deneb payload with the
sample compression function the streaming walker returns exactly the generic
root. -/
theorem dual_hasher_agreement_witness :
    hashTreeRootWith sampleH (newEmptyExecutionPayloadWithVersion .deneb) []
      = Except.ok (hashTreeRoot sampleH (newEmptyExecutionPayloadWithVersion .deneb)) := by
  cases hx : hashTreeRootWith sampleH (newEmptyExecutionPayloadWithVersion .deneb) [] with
  | ok r =>
    rw [dual_hasher_agreement sampleH sampleH_length
      (newEmptyExecutionPayloadWithVersion .deneb) r hx]
  | error e =>
    have hok := hashTreeRootWith_isOk sampleH (newEmptyExecutionPayloadWithVersion .deneb) []
    rw [hx, isOk_error] at hok
    have hnc : ¬ capacityViolated (newEmptyExecutionPayloadWithVersion .deneb) := by decide
    exact absurd (hok.mpr hnc) (by simp)

/-! ## Claim C2: decoder inversion toolkit -/

theorem fitN_exact {n : Nat} (x r : List Nat) (h : x.length = n) :
    fitN n (x ++ r) = ⟨x, h⟩ := by
  apply Subtype.ext
  show (x ++ r).take n ++ List.replicate (n - (x ++ r).length) 0 = x
  rw [List.take_left' h]
  have : n - (x ++ r).length = 0 := by
    simp only [List.length_append]
    omega
  rw [this]
  simp

theorem drop_exact {n : Nat} (x r : List Nat) (h : x.length = n) :
    (x ++ r).drop n = r := List.drop_left' h

theorem readLE_exact {k : Nat} (x r : List Nat) (h : x.length = k) :
    byteListToNatLE ((x ++ r).take k) = byteListToNatLE x := by
  rw [List.take_left' h]

/-- The absolute offsets of a list of variable-byte elements. -/
def offsetVals : Nat → List (List Nat) → List Nat
  | _, [] => []
  | base, tx :: rest => base :: offsetVals (base + tx.length) rest

theorem parseOffsets_encode (txs : List (List Nat)) (base : Nat) (tail : List Nat)
    (hb : base + (txs.map List.length).sum < 2 ^ 32) :
    parseOffsets txs.length (encodeTxOffsets base txs ++ tail)
      = some (offsetVals base txs, tail) := by
  induction txs generalizing base tail with
  | nil => simp [encodeTxOffsets, parseOffsets, offsetVals]
  | cons tx rest ih =>
    show parseOffsets (rest.length + 1)
        ((u32le base ++ encodeTxOffsets (base + tx.length) rest) ++ tail) = _
    rw [List.append_assoc]
    show (if 4 ≤ (u32le base ++ (encodeTxOffsets (base + tx.length) rest ++ tail)).length
      then _ else none) = _
    rw [if_pos (by simp [u32le_length])]
    rw [drop_exact _ _ (u32le_length base)]
    rw [ih (base + tx.length) tail (by
      simp only [List.map_cons, List.sum_cons] at hb
      omega)]
    rw [readLE_exact _ _ (u32le_length base)]
    have hb4 : base < 2 ^ 32 := by
      simp only [List.map_cons, List.sum_cons] at hb
      omega
    have hbase : byteListToNatLE (u32le base) = base := by
      rw [u32le, byteListToNatLE_natToBytesLE]
      exact Nat.mod_eq_of_lt (lt_of_lt_of_le hb4 (by norm_num))
    rw [hbase]
    rfl

theorem offsetSizes_vals (txs : List (List Nat)) (base : Nat) :
    offsetSizes (offsetVals base txs) (base + (txs.map List.length).sum)
      = some (txs.map List.length) := by
  induction txs generalizing base with
  | nil => simp [offsetVals, offsetSizes]
  | cons tx rest ih =>
    cases rest with
    | nil =>
      show offsetSizes [base] (base + (tx.length + 0)) = some [tx.length]
      unfold offsetSizes
      rw [if_pos (by omega)]
      simp
    | cons tx2 rest2 =>
      show offsetSizes (base :: offsetVals (base + tx.length) (tx2 :: rest2)) _ = _
      have hv : offsetVals (base + tx.length) (tx2 :: rest2)
          = (base + tx.length) :: offsetVals (base + tx.length + tx2.length) rest2 := rfl
      rw [hv]
      unfold offsetSizes
      rw [if_pos (by omega)]
      have hsum : base + ((tx :: tx2 :: rest2).map List.length).sum
          = (base + tx.length) + ((tx2 :: rest2).map List.length).sum := by
        simp
        omega
      have := ih (base + tx.length)
      rw [hv] at this
      rw [hsum, this]
      simp

theorem splitSizes_flatten (txs : List (List Nat)) :
    splitSizes (txs.map List.length) txs.flatten = some txs := by
  induction txs with
  | nil => simp [splitSizes]
  | cons tx rest ih =>
    show splitSizes (tx.length :: rest.map List.length) (tx ++ rest.flatten) = _
    unfold splitSizes
    rw [if_pos (by simp)]
    rw [drop_exact _ _ rfl, ih, List.take_left' rfl]

theorem parseDynList_encodeTxs (txs : List (List Nat))
    (hcount : txs.length ≤ maxTxsPerPayload)
    (hlen : ∀ tx ∈ txs, tx.length ≤ maxBytesPerTx)
    (hsz : txsSize txs < 2 ^ 32) :
    parseDynList maxTxsPerPayload maxBytesPerTx (encodeTxs txs) = .ok txs := by
  cases txs with
  | nil => simp [encodeTxs, encodeTxOffsets, parseDynList]
  | cons t rest =>
    have hk : 0 < (t :: rest).length := by simp
    have hreglen : (encodeTxs (t :: rest)).length = txsSize (t :: rest) :=
      encodeTxs_length (t :: rest)
    have hts : txsSize (t :: rest)
        = 4 * (t :: rest).length + ((t :: rest).map List.length).sum :=
      txsSize_eq (t :: rest)
    have hfirst : byteListToNatLE ((encodeTxs (t :: rest)).take 4)
        = 4 * (t :: rest).length := by
      show byteListToNatLE
        (((u32le (4 * (t :: rest).length)
            ++ encodeTxOffsets (4 * (t :: rest).length + t.length) rest)
          ++ (t :: rest).flatten).take 4) = _
      rw [List.append_assoc, readLE_exact _ _ (u32le_length _), u32le,
        byteListToNatLE_natToBytesLE]
      have hb4 : 4 * (t :: rest).length < 2 ^ 32 := by omega
      exact Nat.mod_eq_of_lt (lt_of_lt_of_le hb4 (by norm_num))
    unfold parseDynList
    rw [if_neg (by rw [hreglen]; omega), if_neg (by rw [hreglen]; omega), hfirst]
    rw [if_neg (by omega)]
    rw [Nat.mul_div_cancel_left _ (by omega : 0 < 4)]
    rw [if_neg (by simp only [maxTxsPerPayload] at *; omega)]
    rw [show encodeTxs (t :: rest)
        = encodeTxOffsets (4 * (t :: rest).length) (t :: rest) ++ (t :: rest).flatten
      from rfl]
    rw [parseOffsets_encode (t :: rest) (4 * (t :: rest).length) ((t :: rest).flatten)
      (by omega)]
    rw [show offsetVals (4 * (t :: rest).length) (t :: rest)
        = 4 * (t :: rest).length :: offsetVals (4 * (t :: rest).length + t.length) rest
      from rfl]
    simp only []
    rw [if_neg (by omega)]
    rw [show (4 * (t :: rest).length :: offsetVals (4 * (t :: rest).length + t.length) rest)
        = offsetVals (4 * (t :: rest).length) (t :: rest) from rfl]
    rw [show (encodeTxOffsets (4 * (t :: rest).length) (t :: rest)
          ++ (t :: rest).flatten).length
        = 4 * (t :: rest).length + ((t :: rest).map List.length).sum from by
      rw [show encodeTxOffsets (4 * (t :: rest).length) (t :: rest) ++ (t :: rest).flatten
          = encodeTxs (t :: rest) from rfl, hreglen, hts]]
    rw [offsetSizes_vals (t :: rest) (4 * (t :: rest).length)]
    simp only []
    rw [if_pos (by
      simp only [List.all_eq_true, decide_eq_true_eq]
      intro sz hsz2
      rcases List.mem_map.mp hsz2 with ⟨tx, hmem, rfl⟩
      exact hlen tx hmem)]
    rw [splitSizes_flatten]

theorem fitN_self {n : Nat} (x : List Nat) (h : x.length = n) : fitN n x = ⟨x, h⟩ := by
  apply Subtype.ext
  show x.take n ++ List.replicate (n - x.length) 0 = x
  rw [List.take_of_length_le (by omega), h]
  simp

theorem parseWithdrawal_encode (w : Withdrawal) (r : List Nat)
    (h1 : w.index < 2 ^ 64) (h2 : w.validatorIndex < 2 ^ 64) (h3 : w.amount < 2 ^ 64) :
    parseWithdrawal ((encodeWithdrawal w ++ r).take 44) = w := by
  obtain ⟨wi, wv, wa, wam⟩ := w
  simp only at h1 h2 h3
  have hmod : ∀ m : Nat, m < 2 ^ 64 → m % 256 ^ 8 = m := fun m hm =>
    Nat.mod_eq_of_lt (lt_of_lt_of_le hm (by norm_num))
  rw [List.take_left' (encodeWithdrawal_length _)]
  have hE1 : encodeWithdrawal ⟨wi, wv, wa, wam⟩
      = u64le wi ++ (u64le wv ++ (wa.val ++ u64le wam)) := by
    simp [encodeWithdrawal, List.append_assoc]
  have hE2 : encodeWithdrawal ⟨wi, wv, wa, wam⟩
      = (u64le wi ++ u64le wv) ++ (wa.val ++ u64le wam) := by
    simp [encodeWithdrawal, List.append_assoc]
  have hE3 : encodeWithdrawal ⟨wi, wv, wa, wam⟩
      = (u64le wi ++ u64le wv ++ wa.val) ++ u64le wam := rfl
  unfold parseWithdrawal
  simp only [Withdrawal.mk.injEq]
  refine ⟨?_, ?_, ?_, ?_⟩
  · rw [hE1, readLE_exact _ _ (u64le_length _), u64le, byteListToNatLE_natToBytesLE]
    exact hmod _ h1
  · rw [hE1, drop_exact _ _ (u64le_length _), readLE_exact _ _ (u64le_length _), u64le,
      byteListToNatLE_natToBytesLE]
    exact hmod _ h2
  · rw [hE2, drop_exact _ _ (by simp [u64le_length] :
        (u64le wi ++ u64le wv).length = 16)]
    rw [List.take_left' wa.2]
    exact fitN_self _ wa.2
  · rw [hE3, drop_exact _ _ (by simp [u64le_length, wa.2] :
        (u64le wi ++ u64le wv ++ wa.val).length = 36)]
    rw [List.take_of_length_le (by rw [u64le_length])]
    rw [u64le, byteListToNatLE_natToBytesLE]
    exact hmod _ h3

theorem parseWithdrawalsList_encode (ws : List Withdrawal)
    (hwf : ∀ w ∈ ws, w.index < 2 ^ 64 ∧ w.validatorIndex < 2 ^ 64 ∧ w.amount < 2 ^ 64) :
    parseWithdrawalsList ws.length ((ws.map encodeWithdrawal).flatten) = ws := by
  induction ws with
  | nil => rfl
  | cons w rest ih =>
    rw [List.forall_mem_cons] at hwf
    show parseWithdrawal ((encodeWithdrawal w ++ (rest.map encodeWithdrawal).flatten).take 44)
        :: parseWithdrawalsList rest.length
            ((encodeWithdrawal w ++ (rest.map encodeWithdrawal).flatten).drop 44)
      = w :: rest
    rw [parseWithdrawal_encode w _ hwf.1.1 hwf.1.2.1 hwf.1.2.2,
      drop_exact _ _ (encodeWithdrawal_length w), ih hwf.2]

theorem parseWithdrawals_encode (ws : List Withdrawal)
    (hc : ws.length ≤ maxWithdrawalsPerPayload)
    (hwf : ∀ w ∈ ws, w.index < 2 ^ 64 ∧ w.validatorIndex < 2 ^ 64 ∧ w.amount < 2 ^ 64) :
    parseWithdrawals ((ws.map encodeWithdrawal).flatten)
      = .ok (if ws.isEmpty then none else some ws) := by
  cases ws with
  | nil => rfl
  | cons w rest =>
    have hlen : ((List.map encodeWithdrawal (w :: rest)).flatten).length
        = 44 * (w :: rest).length := withdrawalsContent_length (w :: rest)
    unfold parseWithdrawals
    rw [if_neg (by rw [hlen]; simp), if_neg (by rw [hlen]; omega)]
    rw [if_neg (by
      rw [hlen]
      rw [Nat.mul_div_cancel_left _ (by omega : 0 < 44)]
      omega)]
    rw [hlen, Nat.mul_div_cancel_left _ (by omega : 0 < 44),
      parseWithdrawalsList_encode _ hwf]
    simp

/-- Numeric fields fit their Go integer widths and the total encoded size fits
the 4-byte offsets. -/
def wellFormed (p : ExecutionPayload) : Prop :=
  p.number < 2 ^ 64 ∧ p.gasLimit < 2 ^ 64 ∧ p.gasUsed < 2 ^ 64 ∧ p.timestamp < 2 ^ 64
    ∧ p.blobGasUsed < 2 ^ 64 ∧ p.excessBlobGas < 2 ^ 64
    ∧ p.baseFeePerGas.getD 0 < 2 ^ 256
    ∧ (∀ w ∈ p.withdrawals.getD [], w.index < 2 ^ 64 ∧ w.validatorIndex < 2 ^ 64
        ∧ w.amount < 2 ^ 64)
    ∧ encodedSize p < 2 ^ 32

/-- The nil/empty representation of the withdrawals field matches its fork
version (the canonical post-decode form). -/
def withdrawalsCanonical (p : ExecutionPayload) : Prop :=
  match p.withdrawals with
  | none => equalsOrIsAfter p.version .capella = false
  | some [] => equalsOrIsAfter p.version .capella = true
  | some (_ :: _) => True

theorem decodeSSZ_encode (p : ExecutionPayload) (hcv : ¬ capacityViolated p)
    (hwf : wellFormed p) :
    decodeSSZ p.version (staticRegion p ++ dynamicRegion p)
      = .ok { p with
          baseFeePerGas := some (p.baseFeePerGas.getD 0)
          withdrawals := if (p.withdrawals.getD []).isEmpty then none
                         else some (p.withdrawals.getD []) } := by
  unfold capacityViolated at hcv
  push_neg at hcv
  obtain ⟨hc1, hc2, hc3, hc4⟩ := hcv
  obtain ⟨hw1, hw2, hw3, hw4, hw5, hw6, hw7, hw8, hw9⟩ := hwf
  have hszf : encodedSize p = 528 + p.extraData.length + txsSize p.transactions
      + 44 * (p.withdrawals.getD []).length := by
    simp only [encodedSize, executionPayloadStaticSize, txsSize]
  have hts : txsSize p.transactions
      = 4 * p.transactions.length + (p.transactions.map List.length).sum :=
    txsSize_eq p.transactions
  have hmod64 : ∀ m : Nat, m < 2 ^ 64 → byteListToNatLE (u64le m) = m := by
    intro m hm
    rw [u64le, byteListToNatLE_natToBytesLE]
    exact Nat.mod_eq_of_lt (lt_of_lt_of_le hm (by norm_num))
  have hmod256 : byteListToNatLE (u256le (p.baseFeePerGas.getD 0))
      = p.baseFeePerGas.getD 0 := by
    rw [u256le, byteListToNatLE_natToBytesLE]
    exact Nat.mod_eq_of_lt (lt_of_lt_of_le hw7 (by norm_num))
  have hv1 : byteListToNatLE (u32le 528) = 528 := by
    rw [u32le, byteListToNatLE_natToBytesLE]
    norm_num
  have hv2 : byteListToNatLE (u32le (528 + p.extraData.length))
      = 528 + p.extraData.length := by
    rw [u32le, byteListToNatLE_natToBytesLE]
    refine Nat.mod_eq_of_lt (lt_of_lt_of_le (show _ < (2:Nat) ^ 32 from by omega)
      (by norm_num))
  have hv3 : byteListToNatLE (u32le (528 + p.extraData.length + txsSize p.transactions))
      = 528 + p.extraData.length + txsSize p.transactions := by
    rw [u32le, byteListToNatLE_natToBytesLE]
    refine Nat.mod_eq_of_lt (lt_of_lt_of_le (show _ < (2:Nat) ^ 32 from by omega)
      (by norm_num))
  have hbuf : staticRegion p ++ dynamicRegion p
      = p.parentHash.val ++ (p.feeRecipient.val ++ (p.stateRoot.val ++ (p.receiptsRoot.val ++ (p.logsBloom.val ++ (p.random.val ++ (u64le p.number ++ (u64le p.gasLimit ++ (u64le p.gasUsed ++ (u64le p.timestamp ++ (u32le 528 ++ (u256le (p.baseFeePerGas.getD 0) ++ (p.blockHash.val ++ (u32le (528 + p.extraData.length) ++ (u32le (528 + p.extraData.length + txsSize p.transactions) ++ (u64le p.blobGasUsed ++ (u64le p.excessBlobGas ++ dynamicRegion p)))))))))))))))) := by
    simp [staticRegion, executionPayloadStaticSize, List.append_assoc]
  have hblen : (staticRegion p ++ dynamicRegion p).length
      = encodedSize p := by
    rw [List.length_append, staticRegion_length, dynamicRegion_length, hszf]
    simp [executionPayloadStaticSize]
    omega
  unfold decodeSSZ
  rw [if_neg (by rw [hblen, hszf]; simp [executionPayloadStaticSize]; omega)]
  rw [hbuf]
  dsimp only
  rw [fitN_exact (p.parentHash).val (p.feeRecipient.val ++ (p.stateRoot.val ++ (p.receiptsRoot.val ++ (p.logsBloom.val ++ (p.random.val ++ (u64le p.number ++ (u64le p.gasLimit ++ (u64le p.gasUsed ++ (u64le p.timestamp ++ (u32le 528 ++ (u256le (p.baseFeePerGas.getD 0) ++ (p.blockHash.val ++ (u32le (528 + p.extraData.length) ++ (u32le (528 + p.extraData.length + txsSize p.transactions) ++ (u64le p.blobGasUsed ++ (u64le p.excessBlobGas ++ dynamicRegion p)))))))))))))))) p.parentHash.2]
  rw [drop_exact (p.parentHash.val) (p.feeRecipient.val ++ (p.stateRoot.val ++ (p.receiptsRoot.val ++ (p.logsBloom.val ++ (p.random.val ++ (u64le p.number ++ (u64le p.gasLimit ++ (u64le p.gasUsed ++ (u64le p.timestamp ++ (u32le 528 ++ (u256le (p.baseFeePerGas.getD 0) ++ (p.blockHash.val ++ (u32le (528 + p.extraData.length) ++ (u32le (528 + p.extraData.length + txsSize p.transactions) ++ (u64le p.blobGasUsed ++ (u64le p.excessBlobGas ++ dynamicRegion p)))))))))))))))) (p.parentHash.2)]
  rw [fitN_exact (p.feeRecipient).val (p.stateRoot.val ++ (p.receiptsRoot.val ++ (p.logsBloom.val ++ (p.random.val ++ (u64le p.number ++ (u64le p.gasLimit ++ (u64le p.gasUsed ++ (u64le p.timestamp ++ (u32le 528 ++ (u256le (p.baseFeePerGas.getD 0) ++ (p.blockHash.val ++ (u32le (528 + p.extraData.length) ++ (u32le (528 + p.extraData.length + txsSize p.transactions) ++ (u64le p.blobGasUsed ++ (u64le p.excessBlobGas ++ dynamicRegion p))))))))))))))) p.feeRecipient.2]
  rw [drop_exact (p.feeRecipient.val) (p.stateRoot.val ++ (p.receiptsRoot.val ++ (p.logsBloom.val ++ (p.random.val ++ (u64le p.number ++ (u64le p.gasLimit ++ (u64le p.gasUsed ++ (u64le p.timestamp ++ (u32le 528 ++ (u256le (p.baseFeePerGas.getD 0) ++ (p.blockHash.val ++ (u32le (528 + p.extraData.length) ++ (u32le (528 + p.extraData.length + txsSize p.transactions) ++ (u64le p.blobGasUsed ++ (u64le p.excessBlobGas ++ dynamicRegion p))))))))))))))) (p.feeRecipient.2)]
  rw [fitN_exact (p.stateRoot).val (p.receiptsRoot.val ++ (p.logsBloom.val ++ (p.random.val ++ (u64le p.number ++ (u64le p.gasLimit ++ (u64le p.gasUsed ++ (u64le p.timestamp ++ (u32le 528 ++ (u256le (p.baseFeePerGas.getD 0) ++ (p.blockHash.val ++ (u32le (528 + p.extraData.length) ++ (u32le (528 + p.extraData.length + txsSize p.transactions) ++ (u64le p.blobGasUsed ++ (u64le p.excessBlobGas ++ dynamicRegion p)))))))))))))) p.stateRoot.2]
  rw [drop_exact (p.stateRoot.val) (p.receiptsRoot.val ++ (p.logsBloom.val ++ (p.random.val ++ (u64le p.number ++ (u64le p.gasLimit ++ (u64le p.gasUsed ++ (u64le p.timestamp ++ (u32le 528 ++ (u256le (p.baseFeePerGas.getD 0) ++ (p.blockHash.val ++ (u32le (528 + p.extraData.length) ++ (u32le (528 + p.extraData.length + txsSize p.transactions) ++ (u64le p.blobGasUsed ++ (u64le p.excessBlobGas ++ dynamicRegion p)))))))))))))) (p.stateRoot.2)]
  rw [fitN_exact (p.receiptsRoot).val (p.logsBloom.val ++ (p.random.val ++ (u64le p.number ++ (u64le p.gasLimit ++ (u64le p.gasUsed ++ (u64le p.timestamp ++ (u32le 528 ++ (u256le (p.baseFeePerGas.getD 0) ++ (p.blockHash.val ++ (u32le (528 + p.extraData.length) ++ (u32le (528 + p.extraData.length + txsSize p.transactions) ++ (u64le p.blobGasUsed ++ (u64le p.excessBlobGas ++ dynamicRegion p))))))))))))) p.receiptsRoot.2]
  rw [drop_exact (p.receiptsRoot.val) (p.logsBloom.val ++ (p.random.val ++ (u64le p.number ++ (u64le p.gasLimit ++ (u64le p.gasUsed ++ (u64le p.timestamp ++ (u32le 528 ++ (u256le (p.baseFeePerGas.getD 0) ++ (p.blockHash.val ++ (u32le (528 + p.extraData.length) ++ (u32le (528 + p.extraData.length + txsSize p.transactions) ++ (u64le p.blobGasUsed ++ (u64le p.excessBlobGas ++ dynamicRegion p))))))))))))) (p.receiptsRoot.2)]
  rw [fitN_exact (p.logsBloom).val (p.random.val ++ (u64le p.number ++ (u64le p.gasLimit ++ (u64le p.gasUsed ++ (u64le p.timestamp ++ (u32le 528 ++ (u256le (p.baseFeePerGas.getD 0) ++ (p.blockHash.val ++ (u32le (528 + p.extraData.length) ++ (u32le (528 + p.extraData.length + txsSize p.transactions) ++ (u64le p.blobGasUsed ++ (u64le p.excessBlobGas ++ dynamicRegion p)))))))))))) p.logsBloom.2]
  rw [drop_exact (p.logsBloom.val) (p.random.val ++ (u64le p.number ++ (u64le p.gasLimit ++ (u64le p.gasUsed ++ (u64le p.timestamp ++ (u32le 528 ++ (u256le (p.baseFeePerGas.getD 0) ++ (p.blockHash.val ++ (u32le (528 + p.extraData.length) ++ (u32le (528 + p.extraData.length + txsSize p.transactions) ++ (u64le p.blobGasUsed ++ (u64le p.excessBlobGas ++ dynamicRegion p)))))))))))) (p.logsBloom.2)]
  rw [fitN_exact (p.random).val (u64le p.number ++ (u64le p.gasLimit ++ (u64le p.gasUsed ++ (u64le p.timestamp ++ (u32le 528 ++ (u256le (p.baseFeePerGas.getD 0) ++ (p.blockHash.val ++ (u32le (528 + p.extraData.length) ++ (u32le (528 + p.extraData.length + txsSize p.transactions) ++ (u64le p.blobGasUsed ++ (u64le p.excessBlobGas ++ dynamicRegion p))))))))))) p.random.2]
  rw [drop_exact (p.random.val) (u64le p.number ++ (u64le p.gasLimit ++ (u64le p.gasUsed ++ (u64le p.timestamp ++ (u32le 528 ++ (u256le (p.baseFeePerGas.getD 0) ++ (p.blockHash.val ++ (u32le (528 + p.extraData.length) ++ (u32le (528 + p.extraData.length + txsSize p.transactions) ++ (u64le p.blobGasUsed ++ (u64le p.excessBlobGas ++ dynamicRegion p))))))))))) (p.random.2)]
  rw [readLE_exact (u64le p.number) (u64le p.gasLimit ++ (u64le p.gasUsed ++ (u64le p.timestamp ++ (u32le 528 ++ (u256le (p.baseFeePerGas.getD 0) ++ (p.blockHash.val ++ (u32le (528 + p.extraData.length) ++ (u32le (528 + p.extraData.length + txsSize p.transactions) ++ (u64le p.blobGasUsed ++ (u64le p.excessBlobGas ++ dynamicRegion p)))))))))) (u64le_length p.number)]
  rw [drop_exact (u64le p.number) (u64le p.gasLimit ++ (u64le p.gasUsed ++ (u64le p.timestamp ++ (u32le 528 ++ (u256le (p.baseFeePerGas.getD 0) ++ (p.blockHash.val ++ (u32le (528 + p.extraData.length) ++ (u32le (528 + p.extraData.length + txsSize p.transactions) ++ (u64le p.blobGasUsed ++ (u64le p.excessBlobGas ++ dynamicRegion p)))))))))) (u64le_length p.number)]
  rw [readLE_exact (u64le p.gasLimit) (u64le p.gasUsed ++ (u64le p.timestamp ++ (u32le 528 ++ (u256le (p.baseFeePerGas.getD 0) ++ (p.blockHash.val ++ (u32le (528 + p.extraData.length) ++ (u32le (528 + p.extraData.length + txsSize p.transactions) ++ (u64le p.blobGasUsed ++ (u64le p.excessBlobGas ++ dynamicRegion p))))))))) (u64le_length p.gasLimit)]
  rw [drop_exact (u64le p.gasLimit) (u64le p.gasUsed ++ (u64le p.timestamp ++ (u32le 528 ++ (u256le (p.baseFeePerGas.getD 0) ++ (p.blockHash.val ++ (u32le (528 + p.extraData.length) ++ (u32le (528 + p.extraData.length + txsSize p.transactions) ++ (u64le p.blobGasUsed ++ (u64le p.excessBlobGas ++ dynamicRegion p))))))))) (u64le_length p.gasLimit)]
  rw [readLE_exact (u64le p.gasUsed) (u64le p.timestamp ++ (u32le 528 ++ (u256le (p.baseFeePerGas.getD 0) ++ (p.blockHash.val ++ (u32le (528 + p.extraData.length) ++ (u32le (528 + p.extraData.length + txsSize p.transactions) ++ (u64le p.blobGasUsed ++ (u64le p.excessBlobGas ++ dynamicRegion p)))))))) (u64le_length p.gasUsed)]
  rw [drop_exact (u64le p.gasUsed) (u64le p.timestamp ++ (u32le 528 ++ (u256le (p.baseFeePerGas.getD 0) ++ (p.blockHash.val ++ (u32le (528 + p.extraData.length) ++ (u32le (528 + p.extraData.length + txsSize p.transactions) ++ (u64le p.blobGasUsed ++ (u64le p.excessBlobGas ++ dynamicRegion p)))))))) (u64le_length p.gasUsed)]
  rw [readLE_exact (u64le p.timestamp) (u32le 528 ++ (u256le (p.baseFeePerGas.getD 0) ++ (p.blockHash.val ++ (u32le (528 + p.extraData.length) ++ (u32le (528 + p.extraData.length + txsSize p.transactions) ++ (u64le p.blobGasUsed ++ (u64le p.excessBlobGas ++ dynamicRegion p))))))) (u64le_length p.timestamp)]
  rw [drop_exact (u64le p.timestamp) (u32le 528 ++ (u256le (p.baseFeePerGas.getD 0) ++ (p.blockHash.val ++ (u32le (528 + p.extraData.length) ++ (u32le (528 + p.extraData.length + txsSize p.transactions) ++ (u64le p.blobGasUsed ++ (u64le p.excessBlobGas ++ dynamicRegion p))))))) (u64le_length p.timestamp)]
  rw [readLE_exact (u32le 528) (u256le (p.baseFeePerGas.getD 0) ++ (p.blockHash.val ++ (u32le (528 + p.extraData.length) ++ (u32le (528 + p.extraData.length + txsSize p.transactions) ++ (u64le p.blobGasUsed ++ (u64le p.excessBlobGas ++ dynamicRegion p)))))) (u32le_length 528)]
  rw [drop_exact (u32le 528) (u256le (p.baseFeePerGas.getD 0) ++ (p.blockHash.val ++ (u32le (528 + p.extraData.length) ++ (u32le (528 + p.extraData.length + txsSize p.transactions) ++ (u64le p.blobGasUsed ++ (u64le p.excessBlobGas ++ dynamicRegion p)))))) (u32le_length 528)]
  rw [readLE_exact (u256le (p.baseFeePerGas.getD 0)) (p.blockHash.val ++ (u32le (528 + p.extraData.length) ++ (u32le (528 + p.extraData.length + txsSize p.transactions) ++ (u64le p.blobGasUsed ++ (u64le p.excessBlobGas ++ dynamicRegion p))))) (u256le_length (p.baseFeePerGas.getD 0))]
  rw [drop_exact (u256le (p.baseFeePerGas.getD 0)) (p.blockHash.val ++ (u32le (528 + p.extraData.length) ++ (u32le (528 + p.extraData.length + txsSize p.transactions) ++ (u64le p.blobGasUsed ++ (u64le p.excessBlobGas ++ dynamicRegion p))))) (u256le_length (p.baseFeePerGas.getD 0))]
  rw [fitN_exact (p.blockHash).val (u32le (528 + p.extraData.length) ++ (u32le (528 + p.extraData.length + txsSize p.transactions) ++ (u64le p.blobGasUsed ++ (u64le p.excessBlobGas ++ dynamicRegion p)))) p.blockHash.2]
  rw [drop_exact (p.blockHash.val) (u32le (528 + p.extraData.length) ++ (u32le (528 + p.extraData.length + txsSize p.transactions) ++ (u64le p.blobGasUsed ++ (u64le p.excessBlobGas ++ dynamicRegion p)))) (p.blockHash.2)]
  rw [readLE_exact (u32le (528 + p.extraData.length)) (u32le (528 + p.extraData.length + txsSize p.transactions) ++ (u64le p.blobGasUsed ++ (u64le p.excessBlobGas ++ dynamicRegion p))) (u32le_length (528 + p.extraData.length))]
  rw [drop_exact (u32le (528 + p.extraData.length)) (u32le (528 + p.extraData.length + txsSize p.transactions) ++ (u64le p.blobGasUsed ++ (u64le p.excessBlobGas ++ dynamicRegion p))) (u32le_length (528 + p.extraData.length))]
  rw [readLE_exact (u32le (528 + p.extraData.length + txsSize p.transactions)) (u64le p.blobGasUsed ++ (u64le p.excessBlobGas ++ dynamicRegion p)) (u32le_length (528 + p.extraData.length + txsSize p.transactions))]
  rw [drop_exact (u32le (528 + p.extraData.length + txsSize p.transactions)) (u64le p.blobGasUsed ++ (u64le p.excessBlobGas ++ dynamicRegion p)) (u32le_length (528 + p.extraData.length + txsSize p.transactions))]
  rw [readLE_exact (u64le p.blobGasUsed) (u64le p.excessBlobGas ++ dynamicRegion p) (u64le_length p.blobGasUsed)]
  rw [drop_exact (u64le p.blobGasUsed) (u64le p.excessBlobGas ++ dynamicRegion p) (u64le_length p.blobGasUsed)]
  rw [readLE_exact (u64le p.excessBlobGas) (dynamicRegion p) (u64le_length p.excessBlobGas)]
  rw [drop_exact (u64le p.excessBlobGas) (dynamicRegion p) (u64le_length p.excessBlobGas)]
  rw [hv1, hv2, hv3]
  rw [hmod64 p.number hw1, hmod64 p.gasLimit hw2, hmod64 p.gasUsed hw3,
    hmod64 p.timestamp hw4, hmod64 p.blobGasUsed hw5, hmod64 p.excessBlobGas hw6, hmod256]
  rw [if_neg (by simp [executionPayloadStaticSize])]
  rw [if_neg (by omega)]
  rw [if_neg (by omega)]
  rw [if_neg (by rw [<- hbuf, hblen, hszf]; omega)]
  rw [if_neg (by omega)]
  rw [show 528 + p.extraData.length - 528 = p.extraData.length from by omega]
  rw [show 528 + p.extraData.length + txsSize p.transactions - (528 + p.extraData.length)
      = txsSize p.transactions from by omega]
  rw [show 528 + p.extraData.length + txsSize p.transactions - 528
      = p.extraData.length + txsSize p.transactions from by omega]
  have hdyn : dynamicRegion p
      = p.extraData ++ (encodeTxs p.transactions ++ ((p.withdrawals.getD []).map encodeWithdrawal).flatten) := by
    simp [dynamicRegion, List.append_assoc]
  rw [hdyn]
  rw [List.take_left' (rfl : p.extraData.length = p.extraData.length)]
  rw [drop_exact p.extraData _ rfl]
  rw [List.take_left' (encodeTxs_length p.transactions)]
  have hwreg : (p.extraData ++ (encodeTxs p.transactions ++ ((p.withdrawals.getD []).map encodeWithdrawal).flatten)).drop
        (p.extraData.length + txsSize p.transactions) = ((p.withdrawals.getD []).map encodeWithdrawal).flatten := by
    rw [show p.extraData ++ (encodeTxs p.transactions ++ ((p.withdrawals.getD []).map encodeWithdrawal).flatten)
        = (p.extraData ++ encodeTxs p.transactions) ++ ((p.withdrawals.getD []).map encodeWithdrawal).flatten from by
      simp [List.append_assoc]]
    exact drop_exact _ _ (by rw [List.length_append, encodeTxs_length])
  rw [hwreg]
  rw [parseDynList_encodeTxs p.transactions hc2 hc3 (by omega)]
  rw [parseWithdrawals_encode (p.withdrawals.getD []) hc4 hw8]
  rfl

theorem payload_update_eq (p : ExecutionPayload) (b : Nat)
    (w : Option (List Withdrawal)) (hb : p.baseFeePerGas = some b)
    (hw : p.withdrawals = w) :
    { p with baseFeePerGas := some b, withdrawals := w } = p := by
  cases p
  simp only at hb hw
  subst hb
  subst hw
  rfl

theorem validate_decoded (p : ExecutionPayload) (b : Nat)
    (w : Option (List Withdrawal)) :
    validateAfterDecodingSSZ { p with baseFeePerGas := some b, withdrawals := w }
      = .ok { p with
              baseFeePerGas := some b
              withdrawals := (if w = none ∧ equalsOrIsAfter p.version .capella = true
                then some [] else w) } := by
  simp only [validateAfterDecodingSSZ]
  split_ifs with hc
  · rfl
  · rfl

theorem unmarshal_ok (v : Version) (buf : List Nat) (q : ExecutionPayload)
    (h : decodeSSZ v buf = .ok q) :
    unmarshalSSZ v buf = validateAfterDecodingSSZ q := by
  unfold unmarshalSSZ
  rw [h]

/-- Amended round-trip core: for capacity-bounded, type-range-valid records
whose nullable fields are in canonical decoded form, decode of encode is the
identity. -/
theorem sszRoundTripAux (p : ExecutionPayload) (hcv : ¬ capacityViolated p)
    (hwf : wellFormed p) (hcan : withdrawalsCanonical p)
    (hbf : p.baseFeePerGas ≠ none) :
    unmarshalSSZ p.version (marshalSSZ p).1 = .ok p := by
  obtain ⟨b, hb⟩ : ∃ b, p.baseFeePerGas = some b := by
    cases hx : p.baseFeePerGas with
    | none => exact absurd hx hbf
    | some b => exact ⟨b, rfl⟩
  have hgd : p.baseFeePerGas.getD 0 = b := by rw [hb]; rfl
  have henc : (marshalSSZ p).1 = staticRegion p ++ dynamicRegion p := by
    unfold marshalSSZ encodePayload
    simp [hcv]
  rw [henc]
  rw [unmarshal_ok p.version _ _ (decodeSSZ_encode p hcv hwf)]
  rw [validate_decoded p (p.baseFeePerGas.getD 0)]
  unfold withdrawalsCanonical at hcan
  cases hw : p.withdrawals with
  | none =>
    rw [hw] at hcan
    simp only [hw, Option.getD_none, List.isEmpty_nil, ite_true, Ne, not_false_iff] at hcan ⊢
    rw [if_neg (by
      intro hcon
      rw [hcan] at hcon
      simp at hcon)]
    rw [hgd, payload_update_eq p b none hb hw]
  | some ws =>
    cases ws with
    | nil =>
      rw [hw] at hcan
      have hcan2 : equalsOrIsAfter p.version .capella = true := by simpa using hcan
      simp only [hw, Option.getD_some]
      rw [show (if List.isEmpty ([] : List Withdrawal) = true
            then (none : Option (List Withdrawal)) else some ([] : List Withdrawal))
          = none from by simp]
      rw [if_pos ⟨rfl, hcan2⟩]
      rw [hgd]
      rw [payload_update_eq p b (some []) hb hw]
    | cons w0 rest =>
      simp only [hw, Option.getD_some]
      rw [show (if List.isEmpty (w0 :: rest) = true
            then (none : Option (List Withdrawal)) else some (w0 :: rest))
          = some (w0 :: rest) from by simp]
      rw [if_neg (by
        intro hcon
        simp at hcon)]
      rw [hgd]
      rw [payload_update_eq p b (some (w0 :: rest)) hb hw]

/-! ## Claim C2: normalization (decode composed with encode, in general) -/

/-- Truncate a withdrawal's numeric fields to their Go widths. -/
def normW (w : Withdrawal) : Withdrawal :=
  ⟨w.index % 2 ^ 64, w.validatorIndex % 2 ^ 64, w.address, w.amount % 2 ^ 64⟩

/-- The canonical post-decode form of a payload: numeric fields truncated to
their Go widths, base fee non-nil, withdrawals in the version-canonical
nil/empty representation. -/
def normalizePayload (p : ExecutionPayload) : ExecutionPayload :=
  { p with
    number := p.number % 2 ^ 64
    gasLimit := p.gasLimit % 2 ^ 64
    gasUsed := p.gasUsed % 2 ^ 64
    timestamp := p.timestamp % 2 ^ 64
    blobGasUsed := p.blobGasUsed % 2 ^ 64
    excessBlobGas := p.excessBlobGas % 2 ^ 64
    baseFeePerGas := some (p.baseFeePerGas.getD 0 % 2 ^ 256)
    withdrawals := (if (p.withdrawals.getD []).isEmpty = true
      then (if equalsOrIsAfter p.version .capella = true then some [] else none)
      else some ((p.withdrawals.getD []).map normW)) }

theorem u64le_mod (n : Nat) : u64le (n % 2 ^ 64) = u64le n := by
  rw [show (2:Nat) ^ 64 = 256 ^ 8 from by norm_num]
  exact natToBytesLE_mod 8 n

theorem u256le_mod (n : Nat) : u256le (n % 2 ^ 256) = u256le n := by
  rw [show (2:Nat) ^ 256 = 256 ^ 32 from by norm_num]
  exact natToBytesLE_mod 32 n

theorem encodeWithdrawal_norm (w : Withdrawal) :
    encodeWithdrawal (normW w) = encodeWithdrawal w := by
  unfold encodeWithdrawal normW
  dsimp only
  rw [u64le_mod, u64le_mod, u64le_mod]

theorem norm_withdrawals_getD (p : ExecutionPayload) :
    (normalizePayload p).withdrawals.getD [] = (p.withdrawals.getD []).map normW := by
  unfold normalizePayload
  cases hx : p.withdrawals with
  | none =>
    simp only [hx, Option.getD_none, List.isEmpty_nil, if_true]
    split_ifs <;> rfl
  | some ws =>
    cases ws with
    | nil => split_ifs <;> simp
    | cons w rest => simp

theorem staticRegion_norm (p : ExecutionPayload) :
    staticRegion (normalizePayload p) = staticRegion p := by
  unfold staticRegion normalizePayload
  dsimp only
  rw [u64le_mod, u64le_mod, u64le_mod, u64le_mod, u64le_mod, u64le_mod]
  rw [show (Option.some (p.baseFeePerGas.getD 0 % 2 ^ 256)).getD 0
      = p.baseFeePerGas.getD 0 % 2 ^ 256 from rfl, u256le_mod]

theorem mapEncodeW_norm (ws : List Withdrawal) :
    (ws.map normW).map encodeWithdrawal = ws.map encodeWithdrawal := by
  induction ws with
  | nil => rfl
  | cons w rest ih => simp [encodeWithdrawal_norm, ih]

theorem dynamicRegion_norm (p : ExecutionPayload) :
    dynamicRegion (normalizePayload p) = dynamicRegion p := by
  unfold dynamicRegion
  rw [norm_withdrawals_getD, mapEncodeW_norm]
  rfl

theorem encodedSize_norm (p : ExecutionPayload) :
    encodedSize (normalizePayload p) = encodedSize p := by
  unfold encodedSize
  rw [norm_withdrawals_getD]
  simp [List.length_map, normalizePayload]

theorem sizeSSZ_norm (p : ExecutionPayload) :
    sizeSSZ (normalizePayload p) false = sizeSSZ p false := by
  unfold sizeSSZ
  rw [encodedSize_norm]

theorem capacityViolated_norm (p : ExecutionPayload) :
    capacityViolated (normalizePayload p) ↔ capacityViolated p := by
  unfold capacityViolated
  rw [norm_withdrawals_getD]
  simp [List.length_map, normalizePayload]

theorem marshalSSZ_norm (p : ExecutionPayload) :
    marshalSSZ (normalizePayload p) = marshalSSZ p := by
  unfold marshalSSZ encodePayload
  by_cases hv : capacityViolated p
  · rw [if_pos hv, if_pos ((capacityViolated_norm p).mpr hv), sizeSSZ_norm]
  · rw [if_neg hv, if_neg (fun hc => hv ((capacityViolated_norm p).mp hc)),
      staticRegion_norm, dynamicRegion_norm]

theorem wellFormed_norm (p : ExecutionPayload) (hsz : encodedSize p < 2 ^ 32) :
    wellFormed (normalizePayload p) := by
  have h64 : (0:Nat) < 2 ^ 64 := by positivity
  have h256 : (0:Nat) < 2 ^ 256 := by positivity
  refine ⟨Nat.mod_lt _ h64, Nat.mod_lt _ h64, Nat.mod_lt _ h64, Nat.mod_lt _ h64,
    Nat.mod_lt _ h64, Nat.mod_lt _ h64, ?_, ?_, ?_⟩
  · show (Option.some (p.baseFeePerGas.getD 0 % 2 ^ 256)).getD 0 < 2 ^ 256
    exact Nat.mod_lt _ h256
  · rw [norm_withdrawals_getD]
    intro w hw
    rcases List.mem_map.mp hw with ⟨w0, _, rfl⟩
    exact ⟨Nat.mod_lt _ h64, Nat.mod_lt _ h64, Nat.mod_lt _ h64⟩
  · rw [encodedSize_norm]
    exact hsz

theorem canonical_norm (p : ExecutionPayload) :
    withdrawalsCanonical (normalizePayload p) := by
  unfold withdrawalsCanonical normalizePayload
  cases hx : p.withdrawals.getD [] with
  | nil =>
    simp only [hx, List.isEmpty_nil, if_true]
    by_cases hcap : equalsOrIsAfter p.version .capella = true
    · simp [hcap]
    · simp only [if_neg hcap]
      simpa using hcap
  | cons w rest =>
    simp [hx]

theorem bf_norm (p : ExecutionPayload) : (normalizePayload p).baseFeePerGas ≠ none := by
  simp [normalizePayload]

theorem unmarshal_never_fails (p : ExecutionPayload) (h : (marshalSSZ p).2 = none)
    (hsz : encodedSize p < 2 ^ 32) :
    (unmarshalSSZ p.version (marshalSSZ p).1).isOk = true := by
  have hcv : ¬ capacityViolated p := by
    unfold marshalSSZ encodePayload at h
    by_cases hv : capacityViolated p
    · simp [hv] at h
    · exact hv
  rw [← marshalSSZ_norm p]
  rw [show p.version = (normalizePayload p).version from rfl]
  rw [sszRoundTripAux (normalizePayload p)
    (by rw [capacityViolated_norm]; exact hcv)
    (wellFormed_norm p hsz) (canonical_norm p) (bf_norm p)]
  rfl

/-- Claim C2 (amended): decode of encode is the identity for records in
canonical decoded form with in-range numeric fields and an encoded size below
2^32; and decoding a buffer produced by a successful encode never fails (under
the same size bound, forced by the 4-byte offsets). -/
theorem sszRoundTrip_spec :
    (∀ p : ExecutionPayload, ¬ capacityViolated p → wellFormed p →
        withdrawalsCanonical p → p.baseFeePerGas ≠ none →
        unmarshalSSZ p.version (marshalSSZ p).1 = .ok p)
      ∧ (∀ p : ExecutionPayload, (marshalSSZ p).2 = none → encodedSize p < 2 ^ 32 →
        (unmarshalSSZ p.version (marshalSSZ p).1).isOk = true) :=
  ⟨sszRoundTripAux, unmarshal_never_fails⟩

instance (p : ExecutionPayload) : Decidable (wellFormed p) := by
  unfold wellFormed
  infer_instance

instance (p : ExecutionPayload) : Decidable (withdrawalsCanonical p) := by
  unfold withdrawalsCanonical
  cases p.withdrawals with
  | none => infer_instance
  | some ws =>
    cases ws with
    | nil => infer_instance
    | cons w rest => infer_instance

/-- A pre-Capella payload carrying a non-nil empty withdrawals list. -/
def pPreCapellaEmptyW : ExecutionPayload :=
  { newEmptyExecutionPayloadWithVersion .bellatrix with withdrawals := some [] }

set_option maxRecDepth 8000 in
/-- Counterexample to C2 as stated: this record passes post-decode validation
unchanged, yet decoding its own encoding yields a record whose withdrawals
field is nil rather than the original non-nil empty list. -/
theorem sszRoundTrip_counterexample :
    validateAfterDecodingSSZ pPreCapellaEmptyW = .ok pPreCapellaEmptyW
      ∧ unmarshalSSZ pPreCapellaEmptyW.version (marshalSSZ pPreCapellaEmptyW).1
          ≠ .ok pPreCapellaEmptyW := by
  constructor
  · decide
  · decide

/-- Witness for C2 at a concrete input: the empty Deneb payload round-trips
exactly, and its buffer decodes without failure. -/
theorem sszRoundTrip_witness :
    unmarshalSSZ (newEmptyExecutionPayloadWithVersion .deneb).version
        (marshalSSZ (newEmptyExecutionPayloadWithVersion .deneb)).1
      = .ok (newEmptyExecutionPayloadWithVersion .deneb)
      ∧ (unmarshalSSZ (newEmptyExecutionPayloadWithVersion .deneb).version
          (marshalSSZ (newEmptyExecutionPayloadWithVersion .deneb)).1).isOk = true :=
  ⟨sszRoundTrip_spec.1 _ (by decide) (by decide) (by decide) (by decide),
   sszRoundTrip_spec.2 _ (by decide) (by decide)⟩
